import Mathlib

/-!
Verification development for the `pg_kinesis` change-data-capture bridge
(`pg_kinesis.go`).  The Go program is shallowly embedded: the batch
publisher (`flushRecords`, `putRecord`, `failures`), the JSON envelope
builder (`marshalWALToJSON` and friends), the table filter
(`createTableRegex` and the include/exclude decision of
`handleReplicationMsg`), the acknowledgement state (`ack`,
`sendKeepalive`) and the replication loop are translated into total Lean
functions.  External effects (the Kinesis `PutRecords` call, the shutdown
flag, wall-clock timer expiries and standby-status transmission results)
are supplied as oracle inputs, so a run of the model is a fold over an
explicit trace of events.
-/

namespace PgKinesis

/-- Constant `maxRecordSize = 1 << 20` from the source (1 MiB). -/
def maxRecordSize : Nat := 2 ^ 20

/-- Constant `maxRequestSize = 5 << 20` from the source (5 MiB).  It is
declared in the source but never read by any function. -/
def maxRequestSize : Nat := 5 * 2 ^ 20

/-- Constant `maxRecordsPerRequest = 500` from the source. -/
def maxRecordsPerRequest : Nat := 500

/-- A `kinesis.PutRecordsRequestEntry` as built by `putRecord`:
`Data` is the encoded JSON record (abstracted to its byte length, the only
aspect the program inspects) and `PartitionKey` is the relation name.
`lsn` is ghost data recording the WAL position of the message the record
was encoded from (the spec's `OutgoingRecord.sourceLSN`). -/
structure Entry where
  size : Nat
  partitionKey : String
  lsn : Nat
deriving DecidableEq, Repr

/-- Outcome of one Kinesis `PutRecords` call, as observed by
`flushRecords`: either a transport-level error (`err != nil`), or a
response where `resp i = true` says the `i`-th submitted record carries a
non-nil `ErrorCode`.  `FailedRecordCount` is, per the AWS contract, the
number of response entries with an error code. -/
inductive PutOutcome where
  | err : PutOutcome
  | result (resp : Nat → Bool) : PutOutcome

/-- Whether an outcome is a transport-level error. -/
def PutOutcome.isErr : PutOutcome → Bool
  | .err => true
  | .result _ => false

/-- Select the entries of `l` whose index (counting from `i`) has flag
equal to `keep` in the response.  Order is preserved. -/
def selectByFlag (keep : Bool) (resp : Nat → Bool) : Nat → List Entry → List Entry
  | _, [] => []
  | i, r :: rs =>
    if resp i = keep then r :: selectByFlag keep resp (i + 1) rs
    else selectByFlag keep resp (i + 1) rs

/-- The `failures` function of the source: the records whose response
entry carries an error code, in their original relative order. -/
def failures (records : List Entry) (resp : Nat → Bool) : List Entry :=
  selectByFlag true resp 0 records

/-- The records accepted by Kinesis in one `PutRecords` call (those whose
response entry has no error code); the complement of `failures`. -/
def accepted (records : List Entry) (resp : Nat → Bool) : List Entry :=
  selectByFlag false resp 0 records

/-- State owned by the batch publisher: the global `records` buffer, the
`kinesisClient` (abstracted to a generation counter, bumped each time
`kinesis.New` is called), the `stats.putRecords` counter, and the ghost
history `published` of every record accepted downstream, in acceptance
order. -/
structure PubState where
  records : List Entry
  clientGen : Nat
  putRecords : Nat
  published : List Entry
deriving DecidableEq, Repr

/-- The publisher state at process start. -/
def initPub : PubState := ⟨[], 0, 0, []⟩

/-- The two fatal errors `flushRecords` can return: `interrupted`
("interrupted PutRecords due to shutdown") and `exhausted` ("failed to
put records after many attempts"). -/
inductive FlushErr where
  | interrupted : FlushErr
  | exhausted : FlushErr
deriving DecidableEq, Repr

/-- Result of `flushRecords`: the returned pair (`flushed`, `error`), the
new publisher state, the index of the next backoff attempt, and the ghost
list `buffers` holding a snapshot of the buffer at each `PutRecords` call
actually made. -/
structure FlushOut where
  flushed : Bool
  error : Option FlushErr
  state : PubState
  nextAttempt : Nat
  buffers : List (List Entry)
deriving Repr

/-- Record in a flush result that one more `PutRecords` call was made,
seeing buffer `b`. -/
def withBuf (b : List Entry) (out : FlushOut) : FlushOut :=
  { out with buffers := b :: out.buffers }

/-- Publisher state after a transport-level `PutRecords` error:
`kinesis.New` refreshes the client, the buffer is untouched. -/
def afterTransportErr (s : PubState) : PubState :=
  { s with clientGen := s.clientGen + 1 }

/-- Publisher state after a `PutRecords` response with a positive
`FailedRecordCount`: the buffer shrinks to the failed records
(`records = failures(records, out.Records)`), the accepted ones enter the
ghost `published` history, and `stats.putRecords` grows by
`total - unsent`. -/
def afterPartialFailure (s : PubState) (resp : Nat → Bool) : PubState :=
  { s with records := failures s.records resp,
           published := s.published ++ accepted s.records resp,
           putRecords := s.putRecords + (s.records.length - (failures s.records resp).length) }

/-- Publisher state after a fully successful `PutRecords` call: buffer
cleared, every buffered record accepted, `stats.putRecords` grows by the
buffer length. -/
def afterFullSuccess (s : PubState) : PubState :=
  { s with records := [],
           published := s.published ++ s.records,
           putRecords := s.putRecords + s.records.length }

/-- The retry loop of `flushRecords`.  `fuel` is the number of attempts
the budget still allows (`b.Attempt() < 100`), `i` the current attempt
index.  `oracle i` is the outcome of the `i`-th `PutRecords` call and
`doneF` samples the global `done` flag: `doneF (2*i)` is the check in the
loop condition before attempt `i` and `doneF (2*i+1)` the `done.IsSet()`
check after it.  A transport error refreshes the Kinesis client; a
response with a positive `FailedRecordCount` shrinks the buffer to the
failed records and accounts the rest in `stats.putRecords`; a fully
successful response clears the buffer and returns `(true, nil)` without
a further `done` check. -/
def flushLoop (oracle : Nat → PutOutcome) (doneF : Nat → Bool) :
    Nat → Nat → PubState → FlushOut
  | 0, i, s => ⟨false, some .exhausted, s, i, []⟩
  | fuel + 1, i, s =>
    if doneF (2 * i) then ⟨false, some .exhausted, s, i, []⟩
    else
      match oracle i with
      | .err =>
        if doneF (2 * i + 1) then
          ⟨false, some .interrupted, afterTransportErr s, i + 1, [s.records]⟩
        else withBuf s.records (flushLoop oracle doneF fuel (i + 1) (afterTransportErr s))
      | .result resp =>
        if 0 < (failures s.records resp).length then
          if doneF (2 * i + 1) then
            ⟨false, some .interrupted, afterPartialFailure s resp, i + 1, [s.records]⟩
          else withBuf s.records (flushLoop oracle doneF fuel (i + 1) (afterPartialFailure s resp))
        else ⟨true, none, afterFullSuccess s, i + 1, [s.records]⟩

/-- The `flushRecords` function of the source: a no-op returning
`(false, nil)` on an empty buffer, otherwise the retry loop with a budget
of 100 attempts. -/
def flushRecords (oracle : Nat → PutOutcome) (doneF : Nat → Bool)
    (s : PubState) : FlushOut :=
  if s.records.isEmpty then ⟨false, none, s, 0, []⟩
  else flushLoop oracle doneF 100 0 s

/-- Errors `putRecord` can return: the oversized-record rejection, or an
error propagated from `flushRecords`. -/
inductive PutErr where
  | oversize : PutErr
  | flush (e : FlushErr) : PutErr
deriving DecidableEq, Repr

/-- The `putRecord` function of the source: reject a record larger than
1 MiB, append to the buffer, and flush synchronously once the buffer
reaches 500 records. -/
def putRecord (oracle : Nat → PutOutcome) (doneF : Nat → Bool)
    (e : Entry) (s : PubState) : Bool × Option PutErr × PubState :=
  if maxRecordSize < e.size then (false, some .oversize, s)
  else if (s.records ++ [e]).length < maxRecordsPerRequest then
    (false, none, { s with records := s.records ++ [e] })
  else
    ((flushRecords oracle doneF { s with records := s.records ++ [e] }).flushed,
     (flushRecords oracle doneF { s with records := s.records ++ [e] }).error.map PutErr.flush,
     (flushRecords oracle doneF { s with records := s.records ++ [e] }).state)

/-! ### JSON envelope construction (`marshalWALToJSON`)

`parselogical.ColumnValue` carries the textual value, the declared SQL
type and the quoted-in-wire-format flag.  `parselogical.ParseResult`
carries the operation, the qualified relation and the column maps
(modelled as association lists; the Go maps have unique keys).
`json.Marshal` itself is external, so the model produces the structure
handed to it rather than bytes. -/

/-- A `parselogical.ColumnValue`: `Value`, `Type` and `Quoted`. -/
structure ColumnValue where
  value : String
  ty : String
  quoted : Bool
deriving DecidableEq, Repr

/-- The `{"v": ..., "t": ..., "q": ...}` object built by
`marshalColumnValue`; `q` is the string `"true"` or `"false"`. -/
structure MarshalledValue where
  v : String
  t : String
  q : String
deriving DecidableEq, Repr

/-- The `marshalColumnValue` function of the source. -/
def marshalColumnValue (cv : ColumnValue) : MarshalledValue :=
  ⟨cv.value, cv.ty, if cv.quoted then "true" else "false"⟩

/-- The per-column object of the envelope, holding the optional `"new"`
and `"old"` entries. -/
structure ColumnPair where
  newV : Option MarshalledValue
  oldV : Option MarshalledValue
deriving DecidableEq, Repr

/-- The `marshalColumnValuePair` function of the source: both values
present gives `old`+`new`, one value gives that one only, neither gives
the nil map. -/
def marshalColumnValuePair (newValue oldValue : Option ColumnValue) : ColumnPair :=
  match newValue, oldValue with
  | some n, some o => ⟨some (marshalColumnValue n), some (marshalColumnValue o)⟩
  | some n, none => ⟨some (marshalColumnValue n), none⟩
  | none, some o => ⟨none, some (marshalColumnValue o)⟩
  | none, none => ⟨none, none⟩

/-- A `parselogical.ParseResult` after `ParsePrelude` and `ParseColumns`:
operation, relation, and the `Columns` / `OldColumns` maps. -/
structure ParseResult where
  operation : String
  relation : String
  columns : List (String × ColumnValue)
  oldColumns : List (String × ColumnValue)
deriving DecidableEq, Repr

/-- Body of the `for k, v := range pr.Columns` loop in
`marshalWALToJSON`: `oldV, ok := pr.OldColumns[k]`; DELETE carries only
the old value; otherwise the new value always, plus the old value when it
exists and its textual value differs. -/
def marshalColumn (pr : ParseResult) (k : String) (v : ColumnValue) : ColumnPair :=
  if pr.operation = "DELETE" then marshalColumnValuePair none (some v)
  else
    match List.lookup k pr.oldColumns with
    | some oldV =>
      if v.value ≠ oldV.value then marshalColumnValuePair (some v) (some oldV)
      else marshalColumnValuePair (some v) none
    | none => marshalColumnValuePair (some v) none

/-- The JSON envelope: `lsn` (the WAL position, formatted externally
by `pgx.FormatLSN`), `table`, `operation` and the columns object. -/
structure Envelope where
  lsn : Nat
  table : String
  operation : String
  columns : List (String × ColumnPair)
deriving DecidableEq, Repr

/-- The `marshalWALToJSON` function of the source, producing the
structure that is handed to `json.Marshal`. -/
def marshalWALToJSON (pr : ParseResult) (walStart : Nat) : Envelope :=
  { lsn := walStart,
    table := pr.relation,
    operation := pr.operation,
    columns := pr.columns.map (fun kv => (kv.1, marshalColumn pr kv.1 kv.2)) }

/-! ### Table filter (`createTableRegex` and the include decision)

`createTableRegex` escapes ONLY `.` and `$`, turns `?` into the regex `.`
and `*` into `.*`, and compiles the result with `regexp.MustCompile`.
Every other regex metacharacter of the pattern therefore LEAKS into the
compiled expression and keeps its regex meaning: `+ ( ) | [ ] \x7b \x7d \ ^`
are passed through verbatim, so a pattern such as `users+` matches
`public.userss`, and a pattern that is not valid regex syntax (such as
`a(b`) makes `MustCompile` panic.  The token model below is therefore
exact only on the leak-free fragment: patterns whose characters other
than `?` and `*` are regex-literal (alphanumerics, `_`, `.`, `$`, ...).
`leakedMeta` lists the leaking metacharacters and `regexSafe` carves out
the faithful fragment; theorems about the matcher carry a `regexSafe`
hypothesis on the pattern.  On that fragment the compilation is,
character by character: `?` becomes an any-one-character token, `*` an
any-run token, everything else a literal.  Matching uses Go's
`Regexp.MatchString`, which succeeds when the regex matches ANY substring
of the relation name (the compiled pattern is unanchored). -/

/-- The regex metacharacters the source does NOT escape: `createTableRegex`
replaces only `.` and `$` (and the wildcards `?`/`*`), so these characters
pass into `regexp.MustCompile` with their regex meaning intact. -/
def leakedMeta : List Char :=
  ['\\', '+', '(', ')', '|', '[', ']', '\x7b', '\x7d', '^']

/-- A character on which the token model of `createTableRegex` is faithful
to the Go code: anything except a leaking regex metacharacter. -/
def regexSafe (c : Char) : Bool :=
  !(leakedMeta.contains c)

/-- A token of the compiled table pattern. -/
inductive Tok where
  | lit (c : Char) : Tok
  | anyOne : Tok
  | anyRun : Tok
deriving DecidableEq, Repr

/-- The `createTableRegex` function of the source, as the token list the
produced regular expression denotes ON THE LEAK-FREE FRAGMENT: the source
escapes only `.` and `$`, so for a character in `leakedMeta` the `.lit`
token here does NOT model the Go behaviour (the character stays a live
regex metacharacter in `MustCompile`, or makes it panic).  Theorems
relying on the `.lit` reading carry `regexSafe` hypotheses. -/
def createTableRegex (pattern : List Char) : List Tok :=
  pattern.map (fun c => if c = '?' then .anyOne else if c = '*' then .anyRun else .lit c)

/-- Whether `f` accepts some suffix of the character list (including the
list itself and the empty suffix). -/
def suffixAll (f : List Char → Bool) : List Char → Bool
  | [] => f []
  | c :: s => f (c :: s) || suffixAll f s

/-- Whether the token list matches some prefix of the character list
(matching is unanchored on the right, as in a regex search): a literal
consumes its character, `?` consumes any one character, and `.*` skips
to an arbitrary suffix. -/
def matchHere : List Tok → List Char → Bool
  | [], _ => true
  | .lit c :: ts, s =>
    match s with
    | [] => false
    | d :: ds => c = d && matchHere ts ds
  | .anyOne :: ts, s =>
    match s with
    | [] => false
    | _ :: ds => matchHere ts ds
  | .anyRun :: ts, s => suffixAll (matchHere ts) s

/-- Go's `Regexp.MatchString`: the token list matches starting at some
position of the string (unanchored on the left as well). -/
def matchString (ts : List Tok) (s : List Char) : Bool :=
  suffixAll (matchHere ts) s

/-- The immutable filter configuration: the compiled `tables` and
`excludedTables` lists built from the `-t` / `-T` flags. -/
structure Config where
  tables : List (List Tok)
  excludedTables : List (List Tok)

/-- The include decision of `handleReplicationMsg` on a cache miss:
include when the include list is empty, or when some include pattern
matches; then exclude when some exclude pattern matches. -/
def computeInclude (cfg : Config) (rel : String) : Bool :=
  let inc := cfg.tables.isEmpty || cfg.tables.any (fun p => matchString p rel.toList)
  if cfg.excludedTables.any (fun p => matchString p rel.toList) then false else inc

/-! ### Replication loop, acknowledgement state, and traces

A `Msg` abstracts a `pgx.ReplicationMessage` carrying WAL data:
`WalMessage.WalStart` plus the outcome of the (external) `parselogical`
parse of `WalMessage.WalData` — a prelude parse failure, a BEGIN/COMMIT
marker, or a row change on some relation together with whether
`ParseColumns` fails and the length of the JSON encoding.

The process state gathers the globals of the source: the publisher state,
`maxWal` / `maxWalSent` / `forceAck` / `lastStatus` (the ack state),
`lastMsg`, the `tablesToStream` memo cache and the `stats.skipped`
counter, plus ghost history: `log` (every entry submitted to the buffer),
`sentFrames` (the LSN carried by each standby-status frame handed to
`SendStandbyStatus`), `ackedLsns` (the `WalStart` of each `ack` call),
`connDead` (the replication goroutine has returned with an error) and
`crashed` (`ack` was invoked on a nil message). -/

/-- Parse-level content of one WAL message, see above. -/
inductive WalKind where
  | parseError : WalKind
  | txnMarker : WalKind
  | row (rel : String) (colErr : Bool) (size : Nat) : WalKind
deriving DecidableEq, Repr

/-- A replication message: its `WalStart` LSN and its content. -/
structure Msg where
  lsn : Nat
  kind : WalKind
deriving DecidableEq, Repr

/-- The mutable process-wide state of the bridge. -/
structure SysState where
  pub : PubState
  maxWal : Nat
  maxWalSent : Nat
  forceAck : Bool
  lastMsg : Option Msg
  tablesToStream : List (String × Bool)
  skipped : Nat
  log : List Entry
  sentFrames : List Nat
  ackedLsns : List Nat
  connDead : Bool
  crashed : Bool
deriving DecidableEq, Repr

/-- The process state at startup. -/
def initState : SysState :=
  ⟨initPub, 0, 0, false, none, [], 0, [], [], [], false, false⟩

/-- The `ack` function of the source, applied to a message with
`WalStart = lsn`: raise `maxWal` when the new position is larger and
request a forced status update.  `ackedLsns` is ghost history. -/
def ack (lsn : Nat) (s : SysState) : SysState :=
  if s.maxWal < lsn then
    { s with maxWal := lsn, forceAck := true, ackedLsns := s.ackedLsns ++ [lsn] }
  else { s with ackedLsns := s.ackedLsns ++ [lsn] }

/-- The `sendKeepalive` function of the source.  `timedOut` is the
(external) test `time.Since(lastStatus) >= DefaultKeepaliveTimeout`, and
`ok` whether `SendStandbyStatus` succeeds; on failure the returned error
makes `connectReplicateLoop` return, killing the connection.  The frame
is recorded in `sentFrames` in either case since it may have reached the
upstream. -/
def sendKeepalive (force timedOut ok : Bool) (s : SysState) : SysState :=
  if force || s.forceAck || timedOut || decide (s.maxWalSent < s.maxWal) then
    if ok then
      { s with sentFrames := s.sentFrames ++ [s.maxWal],
               maxWalSent := s.maxWal, forceAck := false }
    else { s with sentFrames := s.sentFrames ++ [s.maxWal], connDead := true }
  else s

/-- The memoized filter consultation of `handleReplicationMsg`: look the
relation up in `tablesToStream`; on a miss, compute the include decision
and record it.  Returns the decision and the updated cache. -/
def filterDecision (cfg : Config) (cache : List (String × Bool)) (rel : String) :
    Bool × List (String × Bool) :=
  match List.lookup rel cache with
  | some bb => (bb, cache)
  | none => (computeInclude cfg rel, cache ++ [(rel, computeInclude cfg rel)])

/-- The tail of `handleReplicationMsg` for a row change, after the filter
has been consulted (`inc` is the decision; `s` already carries the
updated cache): skipped-count on exclusion, fatal error on a column
parse failure, otherwise encode and `putRecord`, then update `lastMsg`
and `ack` when the submit flushed.  An error from `putRecord` is
returned before `lastMsg` is assigned. -/
def handleRow (oracle : Nat → PutOutcome) (doneF : Nat → Bool) (m : Msg)
    (rel : String) (colErr : Bool) (size : Nat) (inc : Bool) (s : SysState) :
    Bool × SysState :=
  if !inc then (false, { s with skipped := s.skipped + 1 })
  else if colErr then (true, s)
  else
    match putRecord oracle doneF ⟨size, rel, m.lsn⟩ s.pub with
    | (_, some .oversize, p') => (true, { s with pub := p' })
    | (_, some (.flush _), p') =>
      (true, { s with pub := p', log := s.log ++ [⟨size, rel, m.lsn⟩] })
    | (flushed, none, p') =>
      (false,
        if flushed then
          ack m.lsn { s with pub := p', lastMsg := some m, log := s.log ++ [⟨size, rel, m.lsn⟩] }
        else { s with pub := p', lastMsg := some m, log := s.log ++ [⟨size, rel, m.lsn⟩] })

/-- The `handleReplicationMsg` function of the source.  Returns `true`
when a (fatal) error is returned to the replication loop.  Order of
operations mirrors the source: prelude parse, BEGIN/COMMIT drop,
memoized filter decision, column parse, JSON encoding, `putRecord`,
`lastMsg` update, and `ack` when the submit flushed. -/
def handleReplicationMsg (cfg : Config) (oracle : Nat → PutOutcome)
    (doneF : Nat → Bool) (m : Msg) (s : SysState) : Bool × SysState :=
  match m.kind with
  | .parseError => (true, s)
  | .txnMarker => (false, s)
  | .row rel colErr size =>
    handleRow oracle doneF m rel colErr size
      (filterDecision cfg s.tablesToStream rel).1
      { s with tablesToStream := (filterDecision cfg s.tablesToStream rel).2 }

/-- One event observable by the two goroutines of a connection:

* `recv m oracle doneF` — the replication loop receives `m` on the
  `replicationMessages` channel and runs `handleReplicationMsg`;
* `flushSig oracle doneF` — the replication loop receives a (coalesced)
  flush signal and runs `flushRecords`, acking `lastMsg` on a flush;
* `keepalive force timedOut ok` — the driver calls
  `sendKeepalive(conn, force)`;
* `connFail` — the driver's connection fails, `connectReplicateLoop`
  returns;
* `reconnect` — the supervisor re-runs `connectReplicateLoop`: a fresh
  Kinesis client is created and a new replication goroutine starts; the
  process globals (buffer, ack state, filter cache, `lastMsg`) persist. -/
inductive Step where
  | recv (m : Msg) (oracle : Nat → PutOutcome) (doneF : Nat → Bool) : Step
  | flushSig (oracle : Nat → PutOutcome) (doneF : Nat → Bool) : Step
  | keepalive (force timedOut ok : Bool) : Step
  | connFail : Step
  | reconnect : Step

/-- Semantics of one step on the process state. -/
def applyStep (cfg : Config) : Step → SysState → SysState
  | .recv m oracle doneF, s =>
    if s.connDead then s
    else
      match handleReplicationMsg cfg oracle doneF m s with
      | (true, s') => { s' with connDead := true }
      | (false, s') => s'
  | .flushSig oracle doneF, s =>
    if s.connDead then s
    else
      match (flushRecords oracle doneF s.pub).error with
      | some _ => { s with pub := (flushRecords oracle doneF s.pub).state, connDead := true }
      | none =>
        if (flushRecords oracle doneF s.pub).flushed then
          match s.lastMsg with
          | some m => ack m.lsn { s with pub := (flushRecords oracle doneF s.pub).state }
          | none => { s with pub := (flushRecords oracle doneF s.pub).state, crashed := true }
        else { s with pub := (flushRecords oracle doneF s.pub).state }
  | .keepalive force timedOut ok, s =>
    if s.connDead then s else sendKeepalive force timedOut ok s
  | .connFail, s => { s with connDead := true }
  | .reconnect, s =>
    { s with connDead := false,
             pub := { s.pub with clientGen := s.pub.clientGen + 1 } }

/-- Run a trace of steps from a state. -/
def runFrom (cfg : Config) (s : SysState) : List Step → SysState
  | [] => s
  | st :: tr => runFrom cfg (applyStep cfg st s) tr

/-- Run a trace of steps from the startup state. -/
def runTrace (cfg : Config) (tr : List Step) : SysState :=
  runFrom cfg initState tr

/-- Validity of a trace: WAL positions of received messages are strictly
increasing (upstream WAL order, no replay), starting above `b`. -/
def validFrom (b : Nat) : List Step → Bool
  | [] => true
  | .recv m _ _ :: tr => decide (b < m.lsn) && validFrom m.lsn tr
  | _ :: tr => validFrom b tr

/-! ### Startup flag validation (`main`) -/

/-- The command-line flags `main` validates before entering the
reconnect loop.  Flag defaults: `--slot` defaults to `"pg_kinesis"`,
`--stream` to the empty string. -/
structure Flags where
  slot : String
  stream : String
  create : Bool
  drop : Bool
deriving DecidableEq, Repr

/-- The flag values when neither `--slot` nor `--stream` nor `--create`
nor `--drop` is given on the command line. -/
def defaultFlags : Flags := ⟨"pg_kinesis", "", false, false⟩

/-- The validation sequence of `main` after connection-string parsing:
each failing check logs and exits with code 1.  The source tests
`*slot == ""` twice — the second check, whose message reads "blank
stream; please specify slot with --stream", never reads `f.stream`.
Returns `true` when startup proceeds to the replication loop. -/
def validateFlags (f : Flags) : Bool :=
  if f.slot = "" then false
  else if f.slot = "" then false
  else if f.create && f.drop then false
  else true

/-- Aggregate payload held in the batch buffer, in bytes. -/
def batchBytes (s : PubState) : Nat :=
  (s.records.map Entry.size).sum

/-- Submit a sequence of records through `putRecord`, keeping the
resulting publisher state. -/
def putSeq (oracle : Nat → PutOutcome) (doneF : Nat → Bool)
    (es : List Entry) (s : PubState) : PubState :=
  es.foldl (fun st e => (putRecord oracle doneF e st).2.2) s

/-- Number of transport-level errors among attempts `i, ..., i+n-1`. -/
def countErrs (oracle : Nat → PutOutcome) (i n : Nat) : Nat :=
  (List.range' i n).countP (fun j => (oracle j).isErr)

/-! ### Lemmas about `failures` and `accepted` -/

theorem selectByFlag_sublist (keep : Bool) (resp : Nat → Bool) :
    ∀ (i : Nat) (l : List Entry), (selectByFlag keep resp i l).Sublist l := by
  intro i l
  induction l generalizing i with
  | nil => simp [selectByFlag]
  | cons r rs ih =>
    simp only [selectByFlag]
    split
    · exact (ih (i + 1)).cons₂ r
    · exact (ih (i + 1)).cons r

theorem mem_selectByFlag (resp : Nat → Bool) :
    ∀ (i : Nat) (l : List Entry) (r : Entry), r ∈ l →
      r ∈ selectByFlag true resp i l ∨ r ∈ selectByFlag false resp i l := by
  intro i l
  induction l generalizing i with
  | nil => intro r h; cases h
  | cons x xs ih =>
    intro r h
    simp only [selectByFlag]
    rcases List.mem_cons.mp h with rfl | hx
    · by_cases hf : resp i = true
      · simp [hf]
      · simp at hf
        simp [hf]
    · rcases ih (i + 1) r hx with h1 | h1
      · left; split <;> simp [h1]
      · right; split <;> simp [h1]

theorem selectByFlag_disjoint (resp : Nat → Bool) :
    ∀ (i : Nat) (l : List Entry), l.Nodup →
      ∀ r ∈ selectByFlag false resp i l, r ∉ selectByFlag true resp i l := by
  intro i l
  induction l generalizing i with
  | nil => intro _ r h; cases h
  | cons x xs ih =>
    intro hnd r hmem hcon
    rcases List.nodup_cons.mp hnd with ⟨hx, hxs⟩
    cases hf : resp i with
    | true =>
      simp only [selectByFlag, hf] at hmem hcon
      simp only [if_neg (by decide : ¬(true = false)), if_pos rfl] at hmem hcon
      rcases List.mem_cons.mp hcon with rfl | hcon'
      · exact hx ((selectByFlag_sublist false resp (i + 1) xs).subset hmem)
      · exact ih (i + 1) hxs r hmem hcon'
    | false =>
      simp only [selectByFlag, hf] at hmem hcon
      simp only [if_neg (by decide : ¬(false = true)), if_pos rfl] at hmem hcon
      rcases List.mem_cons.mp hmem with rfl | hmem'
      · exact hx ((selectByFlag_sublist true resp (i + 1) xs).subset hcon)
      · exact ih (i + 1) hxs r hmem' hcon

theorem selectByFlag_length_le (keep : Bool) (resp : Nat → Bool) :
    ∀ (i : Nat) (l : List Entry), (selectByFlag keep resp i l).length ≤ l.length :=
  fun i l => (selectByFlag_sublist keep resp i l).length_le

theorem accepted_not_mem_failures {l : List Entry} (resp : Nat → Bool)
    (hnd : l.Nodup) {r : Entry} (hr : r ∈ accepted l resp) :
    r ∉ failures l resp :=
  selectByFlag_disjoint resp 0 l hnd r hr

theorem mem_failures_or_accepted {l : List Entry} (resp : Nat → Bool)
    {r : Entry} (hr : r ∈ l) : r ∈ failures l resp ∨ r ∈ accepted l resp :=
  mem_selectByFlag resp 0 l r hr

/-! ### Lemmas about the flush retry loop -/

theorem flushLoop_published_append (oracle : Nat → PutOutcome) (doneF : Nat → Bool) :
    ∀ (fuel i : Nat) (s : PubState),
      ∃ t, (flushLoop oracle doneF fuel i s).state.published = s.published ++ t := by
  intro fuel
  induction fuel with
  | zero => intro i s; exact ⟨[], by simp [flushLoop]⟩
  | succ n ih =>
    intro i s
    simp only [flushLoop]
    split
    · exact ⟨[], by simp⟩
    · split
      · split
        · exact ⟨[], by simp [afterTransportErr]⟩
        · rcases ih (i + 1) (afterTransportErr s) with ⟨t, ht⟩
          exact ⟨t, by simpa [withBuf, afterTransportErr] using ht⟩
      · rename_i resp _
        split
        · split
          · exact ⟨accepted s.records resp, by simp [afterPartialFailure]⟩
          · rcases ih (i + 1) (afterPartialFailure s resp) with ⟨t, ht⟩
            refine ⟨accepted s.records resp ++ t, ?_⟩
            simp only [withBuf]
            simpa [afterPartialFailure] using ht
        · exact ⟨s.records, by simp [afterFullSuccess]⟩

theorem flushLoop_partition (oracle : Nat → PutOutcome) (doneF : Nat → Bool) :
    ∀ (fuel i : Nat) (s : PubState) (r : Entry), r ∈ s.records →
      r ∈ (flushLoop oracle doneF fuel i s).state.records
      ∨ r ∈ (flushLoop oracle doneF fuel i s).state.published := by
  intro fuel
  induction fuel with
  | zero => intro i s r hr; left; simpa [flushLoop] using hr
  | succ n ih =>
    intro i s r hr
    simp only [flushLoop]
    split
    · left; simpa using hr
    · split
      · split
        · left; simpa [afterTransportErr] using hr
        · simpa [withBuf] using ih (i + 1) (afterTransportErr s) r hr
      · rename_i resp _
        split
        · rcases mem_failures_or_accepted resp hr with hf | ha
          · split
            · left; simpa [afterPartialFailure] using hf
            · simpa [withBuf] using ih (i + 1) (afterPartialFailure s resp) r
                (by simpa [afterPartialFailure] using hf)
          · split
            · right; simp [afterPartialFailure, ha]
            · rcases flushLoop_published_append oracle doneF n (i + 1) (afterPartialFailure s resp)
                with ⟨t, ht⟩
              right
              have hmem : r ∈ (flushLoop oracle doneF n (i + 1) (afterPartialFailure s resp)).state.published := by
                rw [ht]
                simp [afterPartialFailure, ha]
              simpa [withBuf] using hmem
        · right; simp [afterFullSuccess, hr]

theorem flushLoop_flushed_records (oracle : Nat → PutOutcome) (doneF : Nat → Bool) :
    ∀ (fuel i : Nat) (s : PubState),
      (flushLoop oracle doneF fuel i s).flushed = true →
      (flushLoop oracle doneF fuel i s).state.records = [] := by
  intro fuel
  induction fuel with
  | zero => intro i s h; simp [flushLoop] at h
  | succ n ih =>
    intro i s
    simp only [flushLoop]
    split
    · intro h; simp at h
    · split
      · split
        · intro h; simp at h
        · intro h
          exact ih (i + 1) (afterTransportErr s) (by simpa [withBuf] using h)
      · rename_i resp _
        split
        · split
          · intro h; simp at h
          · intro h
            exact ih (i + 1) (afterPartialFailure s resp) (by simpa [withBuf] using h)
        · intro _; simp [afterFullSuccess]

theorem flushLoop_records_sublist (oracle : Nat → PutOutcome) (doneF : Nat → Bool) :
    ∀ (fuel i : Nat) (s : PubState),
      (flushLoop oracle doneF fuel i s).state.records.Sublist s.records := by
  intro fuel
  induction fuel with
  | zero => intro i s; simp [flushLoop]
  | succ n ih =>
    intro i s
    simp only [flushLoop]
    split
    · simp
    · split
      · split
        · simp [afterTransportErr]
        · simpa [withBuf, afterTransportErr] using ih (i + 1) (afterTransportErr s)
      · rename_i resp _
        split
        · split
          · simpa [afterPartialFailure] using selectByFlag_sublist true resp 0 s.records
          · have h := ih (i + 1) (afterPartialFailure s resp)
            simp only [withBuf]
            exact h.trans (by simpa [afterPartialFailure] using selectByFlag_sublist true resp 0 s.records)
        · simp [afterFullSuccess]

theorem flushLoop_buffers_sublist (oracle : Nat → PutOutcome) (doneF : Nat → Bool) :
    ∀ (fuel i : Nat) (s : PubState) (b : List Entry),
      b ∈ (flushLoop oracle doneF fuel i s).buffers → b.Sublist s.records := by
  intro fuel
  induction fuel with
  | zero => intro i s b hb; simp [flushLoop] at hb
  | succ n ih =>
    intro i s b
    simp only [flushLoop]
    split
    · intro hb; simp at hb
    · split
      · split
        · intro hb
          simp at hb
          simp [hb]
        · intro hb
          simp only [withBuf] at hb
          rcases List.mem_cons.mp hb with rfl | hb'
          · simp
          · exact (ih (i + 1) (afterTransportErr s) b hb').trans (by simp [afterTransportErr])
      · rename_i resp _
        split
        · split
          · intro hb
            simp at hb
            simp [hb]
          · intro hb
            simp only [withBuf] at hb
            rcases List.mem_cons.mp hb with rfl | hb'
            · simp
            · exact (ih (i + 1) (afterPartialFailure s resp) b hb').trans
                (by simpa [afterPartialFailure] using selectByFlag_sublist true resp 0 s.records)
        · intro hb
          simp at hb
          simp [hb]

theorem afterTransportErr_clientGen (s : PubState) :
    (afterTransportErr s).clientGen = s.clientGen + 1 := rfl

theorem afterPartialFailure_clientGen (s : PubState) (resp : Nat → Bool) :
    (afterPartialFailure s resp).clientGen = s.clientGen := rfl

theorem countErrs_zero (o : Nat → PutOutcome) (i : Nat) : countErrs o i 0 = 0 := by
  simp [countErrs]

theorem countErrs_succ (o : Nat → PutOutcome) (i n : Nat) :
    countErrs o i (n + 1) = (if (o i).isErr then 1 else 0) + countErrs o (i + 1) n := by
  cases h : (o i).isErr <;>
    simp [countErrs, List.range'_succ, List.countP_cons, h, Nat.add_comm]

theorem flushLoop_clientGen (oracle : Nat → PutOutcome) (doneF : Nat → Bool) :
    ∀ (fuel i : Nat) (s : PubState),
      (flushLoop oracle doneF fuel i s).state.clientGen
        = s.clientGen + countErrs oracle i (flushLoop oracle doneF fuel i s).buffers.length := by
  intro fuel
  induction fuel with
  | zero => intro i s; simp [flushLoop, countErrs]
  | succ n ih =>
    intro i s
    simp only [flushLoop]
    split
    · simp [countErrs]
    · split
      · rename_i ho
        split
        · simp [afterTransportErr, countErrs_succ, countErrs_zero, ho, PutOutcome.isErr]
        · have h := ih (i + 1) (afterTransportErr s)
          simp only [withBuf, List.length_cons]
          simp [countErrs_succ, ho, PutOutcome.isErr]
          simp only [afterTransportErr_clientGen] at h
          omega
      · rename_i resp ho
        split
        · split
          · simp [afterPartialFailure, countErrs_succ, countErrs_zero, ho, PutOutcome.isErr]
          · have h := ih (i + 1) (afterPartialFailure s resp)
            simp only [withBuf, List.length_cons]
            simp [countErrs_succ, ho, PutOutcome.isErr]
            simp only [afterPartialFailure_clientGen] at h
            omega
        · simp [afterFullSuccess, countErrs_succ, countErrs_zero, ho, PutOutcome.isErr]

theorem flushLoop_error_cases (oracle : Nat → PutOutcome) (doneF : Nat → Bool) :
    ∀ (fuel i : Nat) (s : PubState),
      (flushLoop oracle doneF fuel i s).error.isSome = true →
      (flushLoop oracle doneF fuel i s).buffers.length = fuel ∨ ∃ j, doneF j = true := by
  intro fuel
  induction fuel with
  | zero => intro i s _; left; simp [flushLoop]
  | succ n ih =>
    intro i s
    simp only [flushLoop]
    split
    · rename_i hd; intro _; right; exact ⟨2 * i, hd⟩
    · split
      · split
        · rename_i hd; intro _; right; exact ⟨2 * i + 1, hd⟩
        · intro h
          rcases ih (i + 1) (afterTransportErr s) (by simpa [withBuf] using h) with h1 | h1
          · left; simp [withBuf, h1]
          · right; exact h1
      · split
        · split
          · rename_i hd; intro _; right; exact ⟨2 * i + 1, hd⟩
          · rename_i resp _ _ _
            intro h
            rcases ih (i + 1) (afterPartialFailure s resp) (by simpa [withBuf] using h) with h1 | h1
            · left; simp [withBuf, h1]
            · right; exact h1
        · intro h; simp at h

theorem flushLoop_error_nonempty (oracle : Nat → PutOutcome) (doneF : Nat → Bool) :
    ∀ (fuel i : Nat) (s : PubState), s.records ≠ [] →
      (flushLoop oracle doneF fuel i s).error.isSome = true →
      (flushLoop oracle doneF fuel i s).state.records ≠ [] := by
  intro fuel
  induction fuel with
  | zero => intro i s hne _; simpa [flushLoop] using hne
  | succ n ih =>
    intro i s hne
    simp only [flushLoop]
    split
    · intro _; simpa using hne
    · split
      · split
        · intro _; simpa [afterTransportErr] using hne
        · intro h
          have := ih (i + 1) (afterTransportErr s) (by simpa [afterTransportErr] using hne)
            (by simpa [withBuf] using h)
          simpa [withBuf] using this
      · rename_i resp _
        split
        · rename_i hlen
          have hne' : (afterPartialFailure s resp).records ≠ [] := by
            simp only [afterPartialFailure]
            intro hc
            rw [hc] at hlen
            simp at hlen
          split
          · intro _; exact hne'
          · intro h
            have := ih (i + 1) (afterPartialFailure s resp) hne' (by simpa [withBuf] using h)
            simpa [withBuf] using this
        · intro h; simp at h

theorem flushLoop_flushed_or_error (oracle : Nat → PutOutcome) (doneF : Nat → Bool) :
    ∀ (fuel i : Nat) (s : PubState),
      (flushLoop oracle doneF fuel i s).flushed = true
      ∨ (flushLoop oracle doneF fuel i s).error.isSome = true := by
  intro fuel
  induction fuel with
  | zero => intro i s; right; simp [flushLoop]
  | succ n ih =>
    intro i s
    simp only [flushLoop]
    split
    · right; simp
    · split
      · split
        · right; simp
        · simpa [withBuf] using ih (i + 1) (afterTransportErr s)
      · rename_i resp _
        split
        · split
          · right; simp
          · simpa [withBuf] using ih (i + 1) (afterPartialFailure s resp)
        · left; simp

theorem flushLoop_buffers_le (oracle : Nat → PutOutcome) (doneF : Nat → Bool) :
    ∀ (fuel i : Nat) (s : PubState),
      (flushLoop oracle doneF fuel i s).buffers.length ≤ fuel := by
  intro fuel
  induction fuel with
  | zero => intro i s; simp [flushLoop]
  | succ n ih =>
    intro i s
    simp only [flushLoop]
    split
    · simp
    · split
      · split
        · simp
        · simp only [withBuf, List.length_cons]
          exact Nat.succ_le_succ (ih (i + 1) (afterTransportErr s))
      · rename_i resp _
        split
        · split
          · simp
          · simp only [withBuf, List.length_cons]
            exact Nat.succ_le_succ (ih (i + 1) (afterPartialFailure s resp))
        · simp

/-! ### Lemmas about `flushRecords` and `putRecord` -/

theorem flushRecords_published_append (oracle : Nat → PutOutcome) (doneF : Nat → Bool)
    (s : PubState) :
    ∃ t, (flushRecords oracle doneF s).state.published = s.published ++ t := by
  unfold flushRecords
  split
  · exact ⟨[], by simp⟩
  · exact flushLoop_published_append oracle doneF 100 0 s

theorem flushRecords_partition (oracle : Nat → PutOutcome) (doneF : Nat → Bool)
    (s : PubState) (r : Entry) (hr : r ∈ s.records) :
    r ∈ (flushRecords oracle doneF s).state.records
    ∨ r ∈ (flushRecords oracle doneF s).state.published := by
  unfold flushRecords
  split
  · left; simpa using hr
  · exact flushLoop_partition oracle doneF 100 0 s r hr

theorem flushRecords_flushed_records (oracle : Nat → PutOutcome) (doneF : Nat → Bool)
    (s : PubState) (h : (flushRecords oracle doneF s).flushed = true) :
    (flushRecords oracle doneF s).state.records = [] := by
  by_cases hemp : s.records.isEmpty = true
  · simp [flushRecords, hemp] at h
  · simp only [flushRecords, if_neg hemp] at h ⊢
    exact flushLoop_flushed_records oracle doneF 100 0 s h

theorem flushRecords_flushed_published (oracle : Nat → PutOutcome) (doneF : Nat → Bool)
    (s : PubState) (h : (flushRecords oracle doneF s).flushed = true)
    (r : Entry) (hr : r ∈ s.records) :
    r ∈ (flushRecords oracle doneF s).state.published := by
  rcases flushRecords_partition oracle doneF s r hr with h1 | h1
  · rw [flushRecords_flushed_records oracle doneF s h] at h1
    cases h1
  · exact h1

theorem flushRecords_records_sublist (oracle : Nat → PutOutcome) (doneF : Nat → Bool)
    (s : PubState) :
    (flushRecords oracle doneF s).state.records.Sublist s.records := by
  unfold flushRecords
  split
  · simp
  · exact flushLoop_records_sublist oracle doneF 100 0 s

theorem flushRecords_buffers_le (oracle : Nat → PutOutcome) (doneF : Nat → Bool)
    (s : PubState) :
    (flushRecords oracle doneF s).buffers.length ≤ 100 := by
  unfold flushRecords
  split
  · simp
  · exact flushLoop_buffers_le oracle doneF 100 0 s

theorem flushRecords_clientGen (oracle : Nat → PutOutcome) (doneF : Nat → Bool)
    (s : PubState) :
    (flushRecords oracle doneF s).state.clientGen
      = s.clientGen + countErrs oracle 0 (flushRecords oracle doneF s).buffers.length := by
  unfold flushRecords
  split
  · simp [countErrs]
  · exact flushLoop_clientGen oracle doneF 100 0 s

theorem flushRecords_error_cases (oracle : Nat → PutOutcome) (doneF : Nat → Bool)
    (s : PubState) (h : (flushRecords oracle doneF s).error.isSome = true) :
    (flushRecords oracle doneF s).buffers.length = 100 ∨ ∃ j, doneF j = true := by
  unfold flushRecords at h ⊢
  split at h
  · simp at h
  · rename_i hne
    split
    · simp_all
    · exact flushLoop_error_cases oracle doneF 100 0 s h

theorem flushRecords_error_nonempty (oracle : Nat → PutOutcome) (doneF : Nat → Bool)
    (s : PubState) (h : (flushRecords oracle doneF s).error.isSome = true) :
    (flushRecords oracle doneF s).state.records ≠ [] := by
  unfold flushRecords at h ⊢
  split at h
  · simp at h
  · rename_i hne
    split
    · simp_all
    · exact flushLoop_error_nonempty oracle doneF 100 0 s
        (by simpa [List.isEmpty_iff] using hne) h

theorem flushRecords_flushed_or_error (oracle : Nat → PutOutcome) (doneF : Nat → Bool)
    (s : PubState) (hne : s.records ≠ []) :
    (flushRecords oracle doneF s).flushed = true
    ∨ (flushRecords oracle doneF s).error.isSome = true := by
  unfold flushRecords
  split
  · rename_i hemp
    exact absurd (List.isEmpty_iff.mp hemp) hne
  · exact flushLoop_flushed_or_error oracle doneF 100 0 s

theorem flushRecords_flushed_nonempty (oracle : Nat → PutOutcome) (doneF : Nat → Bool)
    (s : PubState) (h : (flushRecords oracle doneF s).flushed = true) :
    s.records ≠ [] := by
  unfold flushRecords at h
  split at h
  · simp at h
  · rename_i hne
    simpa [List.isEmpty_iff] using hne

theorem flushRecords_empty (oracle : Nat → PutOutcome) (doneF : Nat → Bool)
    (s : PubState) (h : s.records = []) :
    flushRecords oracle doneF s = ⟨false, none, s, 0, []⟩ := by
  simp [flushRecords, h]

theorem putRecord_cases (oracle : Nat → PutOutcome) (doneF : Nat → Bool)
    (e : Entry) (s : PubState) :
    (maxRecordSize < e.size ∧ putRecord oracle doneF e s = (false, some .oversize, s))
    ∨ (e.size ≤ maxRecordSize ∧ (s.records ++ [e]).length < maxRecordsPerRequest
        ∧ putRecord oracle doneF e s = (false, none, { s with records := s.records ++ [e] }))
    ∨ (e.size ≤ maxRecordSize ∧ maxRecordsPerRequest ≤ (s.records ++ [e]).length
        ∧ putRecord oracle doneF e s
          = ((flushRecords oracle doneF { s with records := s.records ++ [e] }).flushed,
             (flushRecords oracle doneF { s with records := s.records ++ [e] }).error.map PutErr.flush,
             (flushRecords oracle doneF { s with records := s.records ++ [e] }).state)) := by
  unfold putRecord
  split
  · rename_i h; exact Or.inl ⟨h, rfl⟩
  · rename_i h
    split
    · rename_i hlen
      exact Or.inr (Or.inl ⟨Nat.le_of_not_lt h, hlen, rfl⟩)
    · rename_i hlen
      exact Or.inr (Or.inr ⟨Nat.le_of_not_lt h, Nat.le_of_not_lt hlen, rfl⟩)


/-! ### The acknowledgement-safety invariant

`Inv b s` holds of process states reachable by traces whose received WAL
positions are bounded by `b`: every submitted entry either sits in the
buffer or has been accepted downstream, every entry at or below `maxWal`
has been accepted, and every standby-status frame carries an LSN at or
below `maxWal` covered by accepted entries. -/

structure Inv (b : Nat) (s : SysState) : Prop where
  maxWal_le : s.maxWal ≤ b
  log_le : ∀ e ∈ s.log, e.lsn ≤ b
  log_mem : ∀ e ∈ s.log, e ∈ s.pub.published ∨ e ∈ s.pub.records
  covered : ∀ e ∈ s.log, e.lsn ≤ s.maxWal → e ∈ s.pub.published
  frames_le : ∀ L ∈ s.sentFrames, L ≤ s.maxWal
  frames_covered : ∀ L ∈ s.sentFrames, ∀ e ∈ s.log, e.lsn ≤ L → e ∈ s.pub.published
  lastMsg_le : ∀ mm, s.lastMsg = some mm → mm.lsn ≤ b

theorem Inv.mono {b b' : Nat} {s : SysState} (h : Inv b s) (hb : b ≤ b') : Inv b' s :=
  ⟨Nat.le_trans h.maxWal_le hb, fun e he => Nat.le_trans (h.log_le e he) hb,
   h.log_mem, h.covered, h.frames_le, h.frames_covered,
   fun mm hm => Nat.le_trans (h.lastMsg_le mm hm) hb⟩

/-- The LSN bound after a step: a received message raises it to the
message's position. -/
def stepBound (b : Nat) : Step → Nat
  | .recv m _ _ => m.lsn
  | _ => b

/-- Validity of a single step against the current bound. -/
def stepOk (b : Nat) : Step → Prop
  | .recv m _ _ => b < m.lsn
  | _ => True

theorem inv_sendKeepalive {b : Nat} {s : SysState} (h : Inv b s)
    (force timedOut ok : Bool) : Inv b (sendKeepalive force timedOut ok s) := by
  unfold sendKeepalive
  split
  · have frames_le' : ∀ L ∈ s.sentFrames ++ [s.maxWal], L ≤ s.maxWal := by
      intro L hL
      rcases List.mem_append.mp hL with hL | hL
      · exact h.frames_le L hL
      · simp at hL; omega
    have frames_covered' : ∀ L ∈ s.sentFrames ++ [s.maxWal], ∀ e ∈ s.log,
        e.lsn ≤ L → e ∈ s.pub.published := by
      intro L hL e he hle
      rcases List.mem_append.mp hL with hL | hL
      · exact h.frames_covered L hL e he hle
      · simp at hL
        exact h.covered e he (hL ▸ hle)
    split
    · exact ⟨h.maxWal_le, h.log_le, h.log_mem, h.covered, frames_le',
        frames_covered', h.lastMsg_le⟩
    · exact ⟨h.maxWal_le, h.log_le, h.log_mem, h.covered, frames_le',
        frames_covered', h.lastMsg_le⟩
  · exact h

theorem inv_connFail {b : Nat} {s : SysState} (h : Inv b s) :
    Inv b { s with connDead := true } :=
  ⟨h.maxWal_le, h.log_le, h.log_mem, h.covered, h.frames_le, h.frames_covered, h.lastMsg_le⟩

theorem inv_reconnect {b : Nat} {s : SysState} (h : Inv b s) :
    Inv b { s with connDead := false,
                   pub := { s.pub with clientGen := s.pub.clientGen + 1 } } :=
  ⟨h.maxWal_le, h.log_le, h.log_mem, h.covered, h.frames_le, h.frames_covered, h.lastMsg_le⟩


theorem inv_flush_error {b : Nat} {s : SysState} (h : Inv b s) (p' : PubState)
    (hpa : ∃ t, p'.published = s.pub.published ++ t)
    (hpart : ∀ r ∈ s.pub.records, r ∈ p'.records ∨ r ∈ p'.published)
    (cd cr : Bool) :
    Inv b { s with pub := p', connDead := cd, crashed := cr } := by
  rcases hpa with ⟨t, ht⟩
  have hpub : ∀ r ∈ s.pub.published, r ∈ p'.published := by
    intro r hr
    rw [ht]
    exact List.mem_append_left t hr
  refine ⟨h.maxWal_le, h.log_le, ?_, ?_, h.frames_le, ?_, h.lastMsg_le⟩
  · intro e he
    rcases h.log_mem e he with h1 | h1
    · left; exact hpub e h1
    · rcases hpart e h1 with h2 | h2
      · right; exact h2
      · left; exact h2
  · intro e he hle
    exact hpub e (h.covered e he hle)
  · intro L hL e he hle
    exact hpub e (h.frames_covered L hL e he hle)

theorem inv_flushSig (cfg : Config) {b : Nat} {s : SysState} (h : Inv b s)
    (oracle : Nat → PutOutcome) (doneF : Nat → Bool) :
    Inv b (applyStep cfg (.flushSig oracle doneF) s) := by
  simp only [applyStep]
  split
  · exact h
  · have hpa := flushRecords_published_append oracle doneF s.pub
    have hpart := flushRecords_partition oracle doneF s.pub
    cases herr : (flushRecords oracle doneF s.pub).error with
    | some fe =>
      exact inv_flush_error h _ hpa hpart true s.crashed
    | none =>
      cases hfl : (flushRecords oracle doneF s.pub).flushed with
      | false =>
        rw [if_neg (by decide : ¬(false = true))]
        have hemp : s.pub.records = [] := by
          by_cases hr : s.pub.records = []
          · exact hr
          · rcases flushRecords_flushed_or_error oracle doneF s.pub hr with h1 | h1
            · rw [hfl] at h1; cases h1
            · rw [herr] at h1; simp at h1
        have hstate : (flushRecords oracle doneF s.pub).state = s.pub := by
          rw [flushRecords_empty oracle doneF s.pub hemp]
        rw [hstate]
        exact ⟨h.maxWal_le, h.log_le, h.log_mem, h.covered, h.frames_le,
          h.frames_covered, h.lastMsg_le⟩
      | true =>
        rw [if_pos rfl]
        have hallpub : ∀ r ∈ s.pub.records,
            r ∈ (flushRecords oracle doneF s.pub).state.published :=
          flushRecords_flushed_published oracle doneF s.pub hfl
        rcases hpa with ⟨t, ht⟩
        have hpub : ∀ r ∈ s.pub.published,
            r ∈ (flushRecords oracle doneF s.pub).state.published := by
          intro r hr
          rw [ht]
          exact List.mem_append_left t hr
        have hlogpub : ∀ e ∈ s.log,
            e ∈ (flushRecords oracle doneF s.pub).state.published := by
          intro e he
          rcases h.log_mem e he with h1 | h1
          · exact hpub e h1
          · exact hallpub e h1
        cases hlm : s.lastMsg with
        | none =>
          exact ⟨h.maxWal_le, h.log_le,
            fun e he => Or.inl (hlogpub e he),
            fun e he _ => hlogpub e he, h.frames_le,
            fun L hL e he _ => hlogpub e he,
            fun mm hm => h.lastMsg_le mm (hlm ▸ hm)⟩
        | some m =>
          have hmle : m.lsn ≤ b := h.lastMsg_le m hlm
          dsimp only
          unfold ack
          split
          · rename_i hlt
            have hlt' : s.maxWal < m.lsn := hlt
            exact ⟨hmle, h.log_le,
              fun e he => Or.inl (hlogpub e he),
              fun e he _ => hlogpub e he,
              fun L hL => by
                have h1 := h.frames_le L hL
                show L ≤ m.lsn
                omega,
              fun L hL e he _ => hlogpub e he,
              fun mm hm => by
                simp only [Option.some.injEq] at hm
                exact hm ▸ hmle⟩
          · exact ⟨h.maxWal_le, h.log_le,
              fun e he => Or.inl (hlogpub e he),
              fun e he _ => hlogpub e he, h.frames_le,
              fun L hL e he _ => hlogpub e he,
              fun mm hm => by
                simp only [Option.some.injEq] at hm
                exact hm ▸ hmle⟩


theorem inv_cacheSkip {b : Nat} {s : SysState} (h : Inv b s)
    (c : List (String × Bool)) (k : Nat) :
    Inv b { s with tablesToStream := c, skipped := k } :=
  ⟨h.maxWal_le, h.log_le, h.log_mem, h.covered, h.frames_le, h.frames_covered, h.lastMsg_le⟩

theorem inv_handleRow_snd {b : Nat} {s : SysState} (h : Inv b s)
    (oracle : Nat → PutOutcome) (doneF : Nat → Bool) (m : Msg)
    (rel : String) (colErr : Bool) (size : Nat) (inc : Bool) (hlt : b < m.lsn) :
    Inv m.lsn (handleRow oracle doneF m rel colErr size inc s).2 := by
  have hmono : Inv m.lsn s := h.mono (Nat.le_of_lt hlt)
  unfold handleRow
  split
  · exact inv_cacheSkip hmono s.tablesToStream (s.skipped + 1)
  · split
    · exact hmono
    · rcases putRecord_cases oracle doneF ⟨size, rel, m.lsn⟩ s.pub with
        ⟨hsz, heq⟩ | ⟨hsz, hlen, heq⟩ | ⟨hsz, hlen, heq⟩
      · rw [heq]
        exact ⟨hmono.maxWal_le, hmono.log_le, hmono.log_mem, hmono.covered,
          hmono.frames_le, hmono.frames_covered, hmono.lastMsg_le⟩
      · rw [heq]
        dsimp only
        rw [if_neg (by decide : ¬(false = true))]
        refine ⟨?_, ?_, ?_, ?_, hmono.frames_le, ?_, ?_⟩
        · show s.maxWal ≤ m.lsn
          have := h.maxWal_le
          omega
        · intro e' he'
          rcases List.mem_append.mp he' with h1 | h1
          · exact hmono.log_le e' h1
          · simp at h1
            simp [h1]
        · intro e' he'
          rcases List.mem_append.mp he' with h1 | h1
          · rcases h.log_mem e' h1 with h2 | h2
            · left; exact h2
            · right
              show e' ∈ s.pub.records ++ [⟨size, rel, m.lsn⟩]
              exact List.mem_append_left _ h2
          · simp at h1
            right
            show e' ∈ s.pub.records ++ [⟨size, rel, m.lsn⟩]
            simp [h1]
        · intro e' he' hle
          rcases List.mem_append.mp he' with h1 | h1
          · exact h.covered e' h1 hle
          · simp at h1
            subst h1
            simp at hle
            have h2 := h.maxWal_le
            omega
        · intro L hL e' he' hle
          rcases List.mem_append.mp he' with h1 | h1
          · exact h.frames_covered L hL e' h1 hle
          · simp at h1
            subst h1
            simp at hle
            have h2 := h.frames_le L hL
            have h3 := h.maxWal_le
            omega
        · intro mm hm
          simp only [Option.some.injEq] at hm
          subst hm
          exact Nat.le_refl _
      · rw [heq]
        have hpa := flushRecords_published_append oracle doneF
          { s.pub with records := s.pub.records ++ [⟨size, rel, m.lsn⟩] }
        have hpart := flushRecords_partition oracle doneF
          { s.pub with records := s.pub.records ++ [⟨size, rel, m.lsn⟩] }
        rcases hpa with ⟨t, ht⟩
        cases herr : (flushRecords oracle doneF
            { s.pub with records := s.pub.records ++ [⟨size, rel, m.lsn⟩] }).error with
        | some fe =>
          dsimp only [Option.map]
          refine ⟨?_, ?_, ?_, ?_, hmono.frames_le, ?_, ?_⟩
          · show s.maxWal ≤ m.lsn
            have := h.maxWal_le
            omega
          · intro e' he'
            rcases List.mem_append.mp he' with h1 | h1
            · exact hmono.log_le e' h1
            · simp at h1
              simp [h1]
          · intro e' he'
            rcases List.mem_append.mp he' with h1 | h1
            · rcases h.log_mem e' h1 with h2 | h2
              · left
                show e' ∈ _
                rw [ht]
                exact List.mem_append_left t (by simpa using h2)
              · rcases hpart e' (by simp [h2]) with h3 | h3
                · right; exact h3
                · left; exact h3
            · simp at h1
              rcases hpart e' (by simp [h1]) with h3 | h3
              · right; exact h3
              · left; exact h3
          · intro e' he' hle
            rcases List.mem_append.mp he' with h1 | h1
            · show e' ∈ _
              rw [ht]
              exact List.mem_append_left t (by simpa using h.covered e' h1 hle)
            · simp at h1
              subst h1
              simp at hle
              have h2 := h.maxWal_le
              omega
          · intro L hL e' he' hle
            rcases List.mem_append.mp he' with h1 | h1
            · show e' ∈ _
              rw [ht]
              exact List.mem_append_left t (by simpa using h.frames_covered L hL e' h1 hle)
            · simp at h1
              subst h1
              simp at hle
              have h2 := h.frames_le L hL
              have h3 := h.maxWal_le
              omega
          · intro mm hm
            exact hmono.lastMsg_le mm hm
        | none =>
          dsimp only [Option.map]
          cases hfl : (flushRecords oracle doneF
              { s.pub with records := s.pub.records ++ [⟨size, rel, m.lsn⟩] }).flushed with
          | false =>
            exfalso
            rcases flushRecords_flushed_or_error oracle doneF
                { s.pub with records := s.pub.records ++ [⟨size, rel, m.lsn⟩] }
                (by simp) with h1 | h1
            · rw [hfl] at h1; cases h1
            · rw [herr] at h1; simp at h1
          | true =>
            rw [if_pos rfl]
            have hallpub : ∀ r ∈ s.pub.records ++ [(⟨size, rel, m.lsn⟩ : Entry)],
                r ∈ (flushRecords oracle doneF
                  { s.pub with records := s.pub.records ++ [⟨size, rel, m.lsn⟩] }).state.published := by
              intro r hr
              exact flushRecords_flushed_published oracle doneF _ hfl r (by simpa using hr)
            have hlogpub : ∀ e' ∈ s.log ++ [(⟨size, rel, m.lsn⟩ : Entry)],
                e' ∈ (flushRecords oracle doneF
                  { s.pub with records := s.pub.records ++ [⟨size, rel, m.lsn⟩] }).state.published := by
              intro e' he'
              rcases List.mem_append.mp he' with h1 | h1
              · rcases h.log_mem e' h1 with h2 | h2
                · rw [ht]
                  exact List.mem_append_left t (by simpa using h2)
                · exact hallpub e' (List.mem_append_left _ h2)
              · exact hallpub e' (List.mem_append_right _ h1)
            unfold ack
            split
            · refine ⟨Nat.le_refl _, ?_, ?_, ?_, ?_, ?_, ?_⟩
              · intro e' he'
                rcases List.mem_append.mp he' with h1 | h1
                · exact hmono.log_le e' h1
                · simp at h1
                  simp [h1]
              · intro e' he'
                exact Or.inl (hlogpub e' he')
              · intro e' he' _
                exact hlogpub e' he'
              · intro L hL
                show L ≤ m.lsn
                have h1 := h.frames_le L hL
                have h2 := h.maxWal_le
                omega
              · intro L hL e' he' _
                exact hlogpub e' he'
              · intro mm hm
                simp only [Option.some.injEq] at hm
                subst hm
                exact Nat.le_refl _
            · rename_i hnlt
              have hnlt' : ¬(s.maxWal < m.lsn) := hnlt
              exfalso
              have := h.maxWal_le
              omega

theorem inv_handleReplicationMsg_snd (cfg : Config) {b : Nat} {s : SysState}
    (h : Inv b s) (oracle : Nat → PutOutcome) (doneF : Nat → Bool) (m : Msg)
    (hlt : b < m.lsn) :
    Inv m.lsn (handleReplicationMsg cfg oracle doneF m s).2 := by
  have hmono : Inv m.lsn s := h.mono (Nat.le_of_lt hlt)
  unfold handleReplicationMsg
  cases m.kind with
  | parseError => exact hmono
  | txnMarker => exact hmono
  | row rel colErr size =>
    dsimp only
    have hc : Inv b { s with tablesToStream := (filterDecision cfg s.tablesToStream rel).2 } :=
      ⟨h.maxWal_le, h.log_le, h.log_mem, h.covered, h.frames_le, h.frames_covered, h.lastMsg_le⟩
    exact inv_handleRow_snd hc oracle doneF m rel colErr size _ hlt

theorem inv_recv (cfg : Config) {b : Nat} {s : SysState} (h : Inv b s)
    (m : Msg) (oracle : Nat → PutOutcome) (doneF : Nat → Bool) (hlt : b < m.lsn) :
    Inv m.lsn (applyStep cfg (.recv m oracle doneF) s) := by
  have hmono : Inv m.lsn s := h.mono (Nat.le_of_lt hlt)
  simp only [applyStep]
  split
  · exact hmono
  · have h2 := inv_handleReplicationMsg_snd cfg h oracle doneF m hlt
    rcases hr : handleReplicationMsg cfg oracle doneF m s with ⟨e, s'⟩
    rw [hr] at h2
    cases e
    · exact h2
    · exact ⟨h2.maxWal_le, h2.log_le, h2.log_mem, h2.covered, h2.frames_le,
        h2.frames_covered, h2.lastMsg_le⟩


theorem applyStep_inv (cfg : Config) (st : Step) {b : Nat} {s : SysState}
    (h : Inv b s) (hok : stepOk b st) : Inv (stepBound b st) (applyStep cfg st s) := by
  cases st with
  | recv m oracle doneF => exact inv_recv cfg h m oracle doneF hok
  | flushSig oracle doneF => exact inv_flushSig cfg h oracle doneF
  | keepalive force timedOut ok =>
    simp only [applyStep, stepBound]
    split
    · exact h
    · exact inv_sendKeepalive h force timedOut ok
  | connFail =>
    simp only [applyStep, stepBound]
    exact inv_connFail h
  | reconnect =>
    simp only [applyStep, stepBound]
    exact inv_reconnect h

theorem runFrom_inv (cfg : Config) :
    ∀ (tr : List Step) (b : Nat) (s : SysState),
      validFrom b tr = true → Inv b s → ∃ b', Inv b' (runFrom cfg s tr) := by
  intro tr
  induction tr with
  | nil => intro b s _ h; exact ⟨b, h⟩
  | cons st tr ih =>
    intro b s hv h
    cases st with
    | recv m oracle doneF =>
      simp only [validFrom, Bool.and_eq_true, decide_eq_true_eq] at hv
      exact ih m.lsn _ hv.2 (applyStep_inv cfg (.recv m oracle doneF) h hv.1)
    | flushSig oracle doneF =>
      simp only [validFrom] at hv
      exact ih b _ hv (applyStep_inv cfg (.flushSig oracle doneF) h trivial)
    | keepalive force timedOut ok =>
      simp only [validFrom] at hv
      exact ih b _ hv (applyStep_inv cfg (.keepalive force timedOut ok) h trivial)
    | connFail =>
      simp only [validFrom] at hv
      exact ih b _ hv (applyStep_inv cfg .connFail h trivial)
    | reconnect =>
      simp only [validFrom] at hv
      exact ih b _ hv (applyStep_inv cfg .reconnect h trivial)

theorem initState_inv : Inv 0 initState := by
  refine ⟨Nat.le_refl _, ?_, ?_, ?_, ?_, ?_, ?_⟩ <;>
    intro x hx <;> simp [initState, initPub] at hx

theorem runTrace_inv (cfg : Config) (tr : List Step) (hv : validFrom 0 tr = true) :
    ∃ b, Inv b (runTrace cfg tr) :=
  runFrom_inv cfg tr 0 initState hv initState_inv


/-! ### Acknowledgement-state lemmas: `maxWal` monotonicity and
`maxWalSent ≤ maxWal` -/

theorem ack_maxWal_mono (l : Nat) (s : SysState) : s.maxWal ≤ (ack l s).maxWal := by
  unfold ack
  split
  · rename_i hlt
    exact Nat.le_of_lt hlt
  · exact Nat.le_refl _

theorem ack_maxWal_cases (l : Nat) (s : SysState) :
    (ack l s).maxWal = s.maxWal ∨ ((ack l s).maxWal = l ∧ s.maxWal < l) := by
  unfold ack
  split
  · rename_i hlt
    right
    exact ⟨rfl, hlt⟩
  · left
    rfl

theorem ack_maxWalSent (l : Nat) (s : SysState) :
    (ack l s).maxWalSent = s.maxWalSent := by
  unfold ack
  split <;> rfl

theorem le_ack_maxWal {n l : Nat} {s : SysState} (h : n ≤ s.maxWal) :
    n ≤ (ack l s).maxWal :=
  Nat.le_trans h (ack_maxWal_mono l s)

theorem handleRow_wal (oracle : Nat → PutOutcome) (doneF : Nat → Bool) (m : Msg)
    (rel : String) (colErr : Bool) (size : Nat) (inc : Bool) (s : SysState) :
    s.maxWal ≤ (handleRow oracle doneF m rel colErr size inc s).2.maxWal
    ∧ (handleRow oracle doneF m rel colErr size inc s).2.maxWalSent = s.maxWalSent := by
  unfold handleRow
  split
  · exact ⟨Nat.le_refl _, rfl⟩
  · split
    · exact ⟨Nat.le_refl _, rfl⟩
    · rcases putRecord_cases oracle doneF ⟨size, rel, m.lsn⟩ s.pub with
        ⟨hsz, heq⟩ | ⟨hsz, hlen, heq⟩ | ⟨hsz, hlen, heq⟩
      · rw [heq]
        exact ⟨Nat.le_refl _, rfl⟩
      · rw [heq]
        dsimp only
        rw [if_neg (by decide : ¬(false = true))]
        exact ⟨Nat.le_refl _, rfl⟩
      · rw [heq]
        cases herr : (flushRecords oracle doneF
            { s.pub with records := s.pub.records ++ [⟨size, rel, m.lsn⟩] }).error with
        | some fe =>
          dsimp only [Option.map]
          exact ⟨Nat.le_refl _, rfl⟩
        | none =>
          dsimp only [Option.map]
          cases hfl : (flushRecords oracle doneF
              { s.pub with records := s.pub.records ++ [⟨size, rel, m.lsn⟩] }).flushed with
          | false =>
            rw [if_neg (by decide : ¬(false = true))]
            exact ⟨Nat.le_refl _, rfl⟩
          | true =>
            rw [if_pos rfl]
            constructor
            · exact le_ack_maxWal (Nat.le_refl _)
            · rw [ack_maxWalSent]

theorem applyStep_wal (cfg : Config) (st : Step) (s : SysState)
    (hws : s.maxWalSent ≤ s.maxWal) :
    s.maxWal ≤ (applyStep cfg st s).maxWal
    ∧ (applyStep cfg st s).maxWalSent ≤ (applyStep cfg st s).maxWal := by
  cases st with
  | recv m oracle doneF =>
    simp only [applyStep]
    split
    · exact ⟨Nat.le_refl _, hws⟩
    · have hw : s.maxWal ≤ (handleReplicationMsg cfg oracle doneF m s).2.maxWal
          ∧ (handleReplicationMsg cfg oracle doneF m s).2.maxWalSent = s.maxWalSent := by
        unfold handleReplicationMsg
        cases m.kind with
        | parseError => exact ⟨Nat.le_refl _, rfl⟩
        | txnMarker => exact ⟨Nat.le_refl _, rfl⟩
        | row rel colErr size =>
          dsimp only
          exact handleRow_wal oracle doneF m rel colErr size
            (filterDecision cfg s.tablesToStream rel).1
            { s with tablesToStream := (filterDecision cfg s.tablesToStream rel).2 }
      rcases hr : handleReplicationMsg cfg oracle doneF m s with ⟨e, s'⟩
      rw [hr] at hw
      cases e
      · exact ⟨hw.1, hw.2 ▸ Nat.le_trans hws hw.1⟩
      · exact ⟨hw.1, hw.2 ▸ Nat.le_trans hws hw.1⟩
  | flushSig oracle doneF =>
    simp only [applyStep]
    split
    · exact ⟨Nat.le_refl _, hws⟩
    · cases herr : (flushRecords oracle doneF s.pub).error with
      | some fe => exact ⟨Nat.le_refl _, hws⟩
      | none =>
        cases hfl : (flushRecords oracle doneF s.pub).flushed with
        | false =>
          rw [if_neg (by decide : ¬(false = true))]
          exact ⟨Nat.le_refl _, hws⟩
        | true =>
          rw [if_pos rfl]
          cases hlm : s.lastMsg with
          | none => exact ⟨Nat.le_refl _, hws⟩
          | some m =>
            dsimp only
            constructor
            · exact le_ack_maxWal (Nat.le_refl _)
            · rw [ack_maxWalSent]
              exact le_ack_maxWal hws
  | keepalive force timedOut ok =>
    simp only [applyStep]
    split
    · exact ⟨Nat.le_refl _, hws⟩
    · unfold sendKeepalive
      split
      · split
        · exact ⟨Nat.le_refl _, Nat.le_refl _⟩
        · exact ⟨Nat.le_refl _, hws⟩
      · exact ⟨Nat.le_refl _, hws⟩
  | connFail =>
    simp only [applyStep]
    exact ⟨Nat.le_refl _, hws⟩
  | reconnect =>
    simp only [applyStep]
    exact ⟨Nat.le_refl _, hws⟩

theorem runFrom_wal (cfg : Config) :
    ∀ (tr : List Step) (s : SysState), s.maxWalSent ≤ s.maxWal →
      s.maxWal ≤ (runFrom cfg s tr).maxWal
      ∧ (runFrom cfg s tr).maxWalSent ≤ (runFrom cfg s tr).maxWal := by
  intro tr
  induction tr with
  | nil => intro s hws; exact ⟨Nat.le_refl _, hws⟩
  | cons st tr ih =>
    intro s hws
    have h1 := applyStep_wal cfg st s hws
    have h2 := ih (applyStep cfg st s) h1.2
    exact ⟨Nat.le_trans h1.1 h2.1, h2.2⟩

theorem runFrom_append (cfg : Config) :
    ∀ (tr tr' : List Step) (s : SysState),
      runFrom cfg s (tr ++ tr') = runFrom cfg (runFrom cfg s tr) tr' := by
  intro tr
  induction tr with
  | nil => intro tr' s; rfl
  | cons st tr ih => intro tr' s; exact ih tr' (applyStep cfg st s)


/-! ### Crash-freedom and acknowledgement provenance

`SafeInv` captures the nil-safety facts around `lastMsg`: the process has
never dereferenced a nil message in `ack(lastMsg)`, a non-empty buffer
implies a non-nil `lastMsg`, `lastMsg` always names a message whose
record was submitted to the buffer, and every acknowledged LSN is the
LSN of some submitted record. -/

structure SafeInv (s : SysState) : Prop where
  not_crashed : s.crashed = false
  lastMsg_some : s.pub.records ≠ [] → s.lastMsg ≠ none
  lastMsg_logged : ∀ mm, s.lastMsg = some mm → ∃ e ∈ s.log, e.lsn = mm.lsn
  acked_logged : ∀ a ∈ s.ackedLsns, ∃ e ∈ s.log, e.lsn = a

theorem flushRecords_error_input_nonempty (oracle : Nat → PutOutcome)
    (doneF : Nat → Bool) (s : PubState)
    (h : (flushRecords oracle doneF s).error.isSome = true) : s.records ≠ [] := by
  by_cases hemp : s.records.isEmpty = true
  · simp [flushRecords, hemp] at h
  · simpa [List.isEmpty_iff] using hemp

theorem safe_ack {s : SysState} (h : SafeInv s) (l : Nat)
    (hl : ∃ e ∈ s.log, e.lsn = l) : SafeInv (ack l s) := by
  unfold ack
  split
  · refine ⟨h.not_crashed, h.lastMsg_some, h.lastMsg_logged, ?_⟩
    intro a ha
    rcases List.mem_append.mp ha with h1 | h1
    · exact h.acked_logged a h1
    · simp at h1
      exact h1 ▸ hl
  · refine ⟨h.not_crashed, h.lastMsg_some, h.lastMsg_logged, ?_⟩
    intro a ha
    rcases List.mem_append.mp ha with h1 | h1
    · exact h.acked_logged a h1
    · simp at h1
      exact h1 ▸ hl

theorem safe_handleRow {s : SysState} (h : SafeInv s)
    (oracle : Nat → PutOutcome) (doneF : Nat → Bool) (m : Msg)
    (rel : String) (colErr : Bool) (size : Nat) (inc : Bool) :
    SafeInv (handleRow oracle doneF m rel colErr size inc s).2 := by
  unfold handleRow
  split
  · exact ⟨h.not_crashed, h.lastMsg_some, h.lastMsg_logged, h.acked_logged⟩
  · split
    · exact h
    · rcases putRecord_cases oracle doneF ⟨size, rel, m.lsn⟩ s.pub with
        ⟨hsz, heq⟩ | ⟨hsz, hlen, heq⟩ | ⟨hsz, hlen, heq⟩
      · rw [heq]
        exact ⟨h.not_crashed, h.lastMsg_some, h.lastMsg_logged, h.acked_logged⟩
      · rw [heq]
        dsimp only
        rw [if_neg (by decide : ¬(false = true))]
        refine ⟨h.not_crashed, ?_, ?_, ?_⟩
        · intro _ hc
          simp at hc
        · intro mm hm
          simp only [Option.some.injEq] at hm
          subst hm
          exact ⟨⟨size, rel, m.lsn⟩, by simp, rfl⟩
        · intro a ha
          rcases h.acked_logged a ha with ⟨e', he', hl⟩
          exact ⟨e', List.mem_append_left _ he', hl⟩
      · rw [heq]
        cases herr : (flushRecords oracle doneF
            { s.pub with records := s.pub.records ++ [⟨size, rel, m.lsn⟩] }).error with
        | some fe =>
          dsimp only [Option.map]
          refine ⟨h.not_crashed, ?_, ?_, ?_⟩
          · intro _
            have hrec : s.pub.records ≠ [] := by
              intro hc
              rw [hc] at hlen
              simp [maxRecordsPerRequest] at hlen
            exact h.lastMsg_some hrec
          · intro mm hm
            rcases h.lastMsg_logged mm hm with ⟨e', he', hl⟩
            exact ⟨e', List.mem_append_left _ he', hl⟩
          · intro a ha
            rcases h.acked_logged a ha with ⟨e', he', hl⟩
            exact ⟨e', List.mem_append_left _ he', hl⟩
        | none =>
          dsimp only [Option.map]
          have hbase : SafeInv { s with
              pub := (flushRecords oracle doneF
                { s.pub with records := s.pub.records ++ [⟨size, rel, m.lsn⟩] }).state,
              lastMsg := some m,
              log := s.log ++ [⟨size, rel, m.lsn⟩] } := by
            refine ⟨h.not_crashed, ?_, ?_, ?_⟩
            · intro _ hc
              simp at hc
            · intro mm hm
              simp only [Option.some.injEq] at hm
              subst hm
              exact ⟨⟨size, rel, m.lsn⟩, by simp, rfl⟩
            · intro a ha
              rcases h.acked_logged a ha with ⟨e', he', hl⟩
              exact ⟨e', List.mem_append_left _ he', hl⟩
          cases hfl : (flushRecords oracle doneF
              { s.pub with records := s.pub.records ++ [⟨size, rel, m.lsn⟩] }).flushed with
          | false =>
            rw [if_neg (by decide : ¬(false = true))]
            exact hbase
          | true =>
            rw [if_pos rfl]
            exact safe_ack hbase m.lsn ⟨⟨size, rel, m.lsn⟩, by simp, rfl⟩

theorem safe_applyStep (cfg : Config) (st : Step) {s : SysState} (h : SafeInv s) :
    SafeInv (applyStep cfg st s) := by
  cases st with
  | recv m oracle doneF =>
    simp only [applyStep]
    split
    · exact h
    · have h2 : SafeInv (handleReplicationMsg cfg oracle doneF m s).2 := by
        unfold handleReplicationMsg
        cases m.kind with
        | parseError => exact h
        | txnMarker => exact h
        | row rel colErr size =>
          dsimp only
          have hc : SafeInv { s with
              tablesToStream := (filterDecision cfg s.tablesToStream rel).2 } :=
            ⟨h.not_crashed, h.lastMsg_some, h.lastMsg_logged, h.acked_logged⟩
          exact safe_handleRow hc oracle doneF m rel colErr size
            (filterDecision cfg s.tablesToStream rel).1
      rcases hr : handleReplicationMsg cfg oracle doneF m s with ⟨e, s'⟩
      rw [hr] at h2
      cases e
      · exact h2
      · exact ⟨h2.not_crashed, h2.lastMsg_some, h2.lastMsg_logged, h2.acked_logged⟩
  | flushSig oracle doneF =>
    simp only [applyStep]
    split
    · exact h
    · cases herr : (flushRecords oracle doneF s.pub).error with
      | some fe =>
        refine ⟨h.not_crashed, ?_, h.lastMsg_logged, h.acked_logged⟩
        intro _
        exact h.lastMsg_some (flushRecords_error_input_nonempty oracle doneF s.pub
          (by simp [herr]))
      | none =>
        cases hfl : (flushRecords oracle doneF s.pub).flushed with
        | false =>
          rw [if_neg (by decide : ¬(false = true))]
          have hemp : s.pub.records = [] := by
            by_cases hr : s.pub.records = []
            · exact hr
            · rcases flushRecords_flushed_or_error oracle doneF s.pub hr with h1 | h1
              · rw [hfl] at h1; cases h1
              · rw [herr] at h1; simp at h1
          have hstate : (flushRecords oracle doneF s.pub).state = s.pub := by
            rw [flushRecords_empty oracle doneF s.pub hemp]
          rw [hstate]
          exact ⟨h.not_crashed, h.lastMsg_some, h.lastMsg_logged, h.acked_logged⟩
        | true =>
          rw [if_pos rfl]
          have hne : s.pub.records ≠ [] :=
            flushRecords_flushed_nonempty oracle doneF s.pub hfl
          cases hlm : s.lastMsg with
          | none =>
            exact absurd hlm (h.lastMsg_some hne)
          | some m =>
            dsimp only
            rcases h.lastMsg_logged m hlm with ⟨e', he', hl⟩
            have hbase : SafeInv
                { s with
                  pub := (flushRecords oracle doneF s.pub).state
                  lastMsg := some m } := by
              refine ⟨h.not_crashed, ?_, ?_, h.acked_logged⟩
              · intro _
                simp
              · intro mm hm
                have hm' : m = mm := Option.some.inj hm
                exact hm' ▸ h.lastMsg_logged m hlm
            exact safe_ack hbase m.lsn ⟨e', he', hl⟩
  | keepalive force timedOut ok =>
    simp only [applyStep]
    split
    · exact h
    · unfold sendKeepalive
      split
      · split
        · exact ⟨h.not_crashed, h.lastMsg_some, h.lastMsg_logged, h.acked_logged⟩
        · exact ⟨h.not_crashed, h.lastMsg_some, h.lastMsg_logged, h.acked_logged⟩
      · exact h
  | connFail =>
    simp only [applyStep]
    exact ⟨h.not_crashed, h.lastMsg_some, h.lastMsg_logged, h.acked_logged⟩
  | reconnect =>
    simp only [applyStep]
    exact ⟨h.not_crashed, h.lastMsg_some, h.lastMsg_logged, h.acked_logged⟩

theorem initState_safe : SafeInv initState := by
  refine ⟨rfl, ?_, ?_, ?_⟩
  · intro hc
    simp [initState, initPub] at hc
  · intro mm hm
    simp [initState] at hm
  · intro a ha
    simp [initState] at ha

theorem runFrom_safe (cfg : Config) :
    ∀ (tr : List Step) (s : SysState), SafeInv s → SafeInv (runFrom cfg s tr) := by
  intro tr
  induction tr with
  | nil => intro s h; exact h
  | cons st tr ih => intro s h; exact ih _ (safe_applyStep cfg st h)


/-! ### Filter-cache correctness (memoization) -/

/-- Every memoized decision in `tablesToStream` equals the pure include
decision for its relation. -/
def cacheOk (cfg : Config) (s : SysState) : Prop :=
  ∀ p ∈ s.tablesToStream, p.2 = computeInclude cfg p.1

theorem ack_cache (l : Nat) (s : SysState) :
    (ack l s).tablesToStream = s.tablesToStream := by
  unfold ack
  split <;> rfl

theorem handleRow_cache (oracle : Nat → PutOutcome) (doneF : Nat → Bool) (m : Msg)
    (rel : String) (colErr : Bool) (size : Nat) (inc : Bool) (s : SysState) :
    (handleRow oracle doneF m rel colErr size inc s).2.tablesToStream
      = s.tablesToStream := by
  unfold handleRow
  split
  · rfl
  · split
    · rfl
    · rcases putRecord_cases oracle doneF ⟨size, rel, m.lsn⟩ s.pub with
        ⟨hsz, heq⟩ | ⟨hsz, hlen, heq⟩ | ⟨hsz, hlen, heq⟩
      · rw [heq]
      · rw [heq]
        dsimp only
        rw [if_neg (by decide : ¬(false = true))]
      · rw [heq]
        cases herr : (flushRecords oracle doneF
            { s.pub with records := s.pub.records ++ [⟨size, rel, m.lsn⟩] }).error with
        | some fe => dsimp only [Option.map]
        | none =>
          dsimp only [Option.map]
          cases hfl : (flushRecords oracle doneF
              { s.pub with records := s.pub.records ++ [⟨size, rel, m.lsn⟩] }).flushed with
          | false => rw [if_neg (by decide : ¬(false = true))]
          | true =>
            rw [if_pos rfl]
            rw [ack_cache]

theorem filterDecision_cacheOk (cfg : Config) {s : SysState} (h : cacheOk cfg s)
    (rel : String) :
    ∀ p ∈ (filterDecision cfg s.tablesToStream rel).2, p.2 = computeInclude cfg p.1 := by
  unfold filterDecision
  cases hc : List.lookup rel s.tablesToStream with
  | some bb => exact h
  | none =>
    intro p hp
    rcases List.mem_append.mp hp with h1 | h1
    · exact h p h1
    · simp at h1
      subst h1
      rfl

theorem cacheOk_applyStep (cfg : Config) (st : Step) {s : SysState}
    (h : cacheOk cfg s) : cacheOk cfg (applyStep cfg st s) := by
  cases st with
  | recv m oracle doneF =>
    simp only [applyStep]
    split
    · exact h
    · have h2 : cacheOk cfg (handleReplicationMsg cfg oracle doneF m s).2 := by
        unfold handleReplicationMsg
        cases m.kind with
        | parseError => exact h
        | txnMarker => exact h
        | row rel colErr size =>
          dsimp only
          intro p hp
          rw [handleRow_cache] at hp
          exact filterDecision_cacheOk cfg h rel p hp
      rcases hr : handleReplicationMsg cfg oracle doneF m s with ⟨e, s'⟩
      rw [hr] at h2
      cases e
      · exact h2
      · exact h2
  | flushSig oracle doneF =>
    simp only [applyStep]
    split
    · exact h
    · cases herr : (flushRecords oracle doneF s.pub).error with
      | some fe => exact h
      | none =>
        cases hfl : (flushRecords oracle doneF s.pub).flushed with
        | false =>
          rw [if_neg (by decide : ¬(false = true))]
          exact h
        | true =>
          rw [if_pos rfl]
          cases hlm : s.lastMsg with
          | none => exact h
          | some m =>
            dsimp only
            intro p hp
            rw [ack_cache] at hp
            exact h p hp
  | keepalive force timedOut ok =>
    simp only [applyStep]
    split
    · exact h
    · unfold sendKeepalive
      split
      · split
        · exact h
        · exact h
      · exact h
  | connFail =>
    simp only [applyStep]
    exact h
  | reconnect =>
    simp only [applyStep]
    exact h

theorem runFrom_cacheOk (cfg : Config) :
    ∀ (tr : List Step) (s : SysState), cacheOk cfg s →
      cacheOk cfg (runFrom cfg s tr) := by
  intro tr
  induction tr with
  | nil => intro s h; exact h
  | cons st tr ih => intro s h; exact ih _ (cacheOk_applyStep cfg st h)


/-! ### Lookup lemmas for the JSON envelope -/

theorem lookup_map_assoc (f : String → ColumnValue → ColumnPair) :
    ∀ (l : List (String × ColumnValue)) (k : String) (v : ColumnValue),
      (k, v) ∈ l → (l.map Prod.fst).Nodup →
      List.lookup k (l.map (fun kv => (kv.1, f kv.1 kv.2))) = some (f k v) := by
  intro l
  induction l with
  | nil => intro k v hmem _; cases hmem
  | cons kv tl ih =>
    obtain ⟨k0, v0⟩ := kv
    intro k v hmem hnd
    rcases List.nodup_cons.mp hnd with ⟨hk, htl⟩
    rcases List.mem_cons.mp hmem with heq | hmem'
    · rcases Prod.mk.injEq .. ▸ heq with ⟨rfl, rfl⟩
      simp [List.lookup]
    · have hne : ¬(k == k0) = true := by
        simp only [beq_iff_eq]
        intro hc
        subst hc
        exact hk (List.mem_map.mpr ⟨(k, v), hmem', rfl⟩)
      simp only [List.map_cons, List.lookup, hne]
      exact ih k v hmem' htl

/-! ### Glob semantics of literal-only table patterns -/

theorem createTableRegex_lits {p : List Char}
    (h : ∀ c ∈ p, c ≠ '?' ∧ c ≠ '*') :
    createTableRegex p = p.map Tok.lit := by
  induction p with
  | nil => rfl
  | cons c cs ih =>
    have hc := h c (List.mem_cons_self c cs)
    simp only [createTableRegex, List.map_cons] at ih ⊢
    rw [if_neg hc.1, if_neg hc.2]
    rw [ih]
    intro d hd
    exact h d (List.mem_cons_of_mem c hd)

theorem matchHere_lits :
    ∀ (p s : List Char), matchHere (p.map Tok.lit) s = true ↔ ∃ t, s = p ++ t := by
  intro p
  induction p with
  | nil =>
    intro s
    simp [matchHere]
  | cons c cs ih =>
    intro s
    cases s with
    | nil =>
      simp [matchHere]
    | cons d ds =>
      simp only [List.map_cons, matchHere, Bool.and_eq_true, decide_eq_true_eq]
      constructor
      · rintro ⟨rfl, hm⟩
        rcases (ih ds).mp hm with ⟨t, rfl⟩
        exact ⟨t, rfl⟩
      · rintro ⟨t, ht⟩
        simp only [List.cons_append, List.cons.injEq] at ht
        refine ⟨ht.1.symm, (ih ds).mpr ⟨t, ht.2⟩⟩

theorem suffixAll_lits (p : List Char) :
    ∀ s : List Char, suffixAll (matchHere (p.map Tok.lit)) s = true ↔
      ∃ l t, s = l ++ p ++ t := by
  intro s
  induction s with
  | nil =>
    simp only [suffixAll, matchHere_lits]
    constructor
    · rintro ⟨t, ht⟩
      exact ⟨[], t, ht⟩
    · rintro ⟨l, t, ht⟩
      cases l with
      | nil => exact ⟨t, ht⟩
      | cons x xs => simp at ht
  | cons c cs ih =>
    simp only [suffixAll, Bool.or_eq_true, matchHere_lits, ih]
    constructor
    · rintro (⟨t, ht⟩ | ⟨l, t, ht⟩)
      · exact ⟨[], t, ht⟩
      · exact ⟨c :: l, t, by simp [ht]⟩
    · rintro ⟨l, t, ht⟩
      cases l with
      | nil => exact Or.inl ⟨t, ht⟩
      | cons x xs =>
        simp only [List.cons_append, List.cons.injEq] at ht
        exact Or.inr ⟨xs, t, ht.2⟩

theorem matchString_lits (s p : List Char) :
    matchString (p.map Tok.lit) s = true ↔ ∃ l t, s = l ++ p ++ t :=
  suffixAll_lits p s

/-! ### Shared concrete instances used by witnesses and counterexamples -/

/-- The empty filter configuration (no `-t`, no `-T` flags). -/
def cfg0 : Config := ⟨[], []⟩

/-- A Kinesis oracle that accepts every record of every call. -/
def oracleOk : Nat → PutOutcome := fun _ => .result (fun _ => false)

/-- A Kinesis oracle that fails every call with a transport error. -/
def oracleErr : Nat → PutOutcome := fun _ => .err

/-- A shutdown flag that is never set. -/
def doneNever : Nat → Bool := fun _ => false

/-- A three-event trace: one row change, a flush signal, a keepalive
after the 5-second timer expired. -/
def w1trace : List Step :=
  [.recv ⟨1, .row "t" false 1⟩ oracleOk doneNever,
   .flushSig oracleOk doneNever,
   .keepalive false true true]

/-- Row-change steps at LSNs `a, a+1, ..., a+n-1`, all on relation `t`
with 1-byte encodings, received while Kinesis reports transport errors. -/
def cexMsgs (a n : Nat) : List Step :=
  (List.range' a n).map (fun j => .recv ⟨j, .row "t" false 1⟩ oracleErr doneNever)

/-- Counterexample trace: 500 row changes at LSNs 1..500; the 500th
submit triggers a synchronous flush whose every attempt hits a transport
error, so the replication goroutine dies with the buffer full and
`lastMsg` still naming LSN 499; after the reconnect a flush signal
publishes the whole buffer. -/
def cexTrace : List Step :=
  cexMsgs 1 500 ++ [.reconnect, .flushSig oracleOk doneNever]

/-- The buffer/log contents after the first `n` row changes: one entry
per LSN `1..n`. -/
def entriesUpto (n : Nat) : List Entry :=
  (List.range' 1 n).map (fun i => ⟨1, "t", i⟩)

/-- The process state after the first `n ≤ 499` messages of `cexTrace`:
everything buffered, nothing flushed or acknowledged. -/
def cexState (n : Nat) : SysState :=
  ⟨⟨entriesUpto n, 0, 0, []⟩, 0, 0, false, some ⟨n, .row "t" false 1⟩, [("t", true)], 0,
   entriesUpto n, [], [], false, false⟩

/-- The process state right after the 500th message: the in-submit flush
exhausted its budget (100 client refreshes), the connection is dead, the
buffer holds all 500 records, and `lastMsg` still names LSN 499. -/
def cexState500 : SysState :=
  ⟨⟨entriesUpto 500, 100, 0, []⟩, 0, 0, false, some ⟨499, .row "t" false 1⟩, [("t", true)], 0,
   entriesUpto 500, [], [], true, false⟩

/-- The final state of `cexTrace`: the post-reconnect flush published
all 500 records, and `ack(lastMsg)` acknowledged LSN 499. -/
def cexFinal : SysState :=
  ⟨⟨[], 101, 500, entriesUpto 500⟩, 499, 0, true, some ⟨499, .row "t" false 1⟩, [("t", true)], 0,
   entriesUpto 500, [], [499], false, false⟩

/-- Observations of a state used by the `lastMsg` counterexample. -/
def cexProbe (s : SysState) :
    Nat × List Nat × Option Nat × Option Nat × Option Nat × List Entry :=
  (s.maxWal, s.ackedLsns, s.lastMsg.map Msg.lsn, s.log.getLast?.map Entry.lsn,
   s.pub.published.getLast?.map Entry.lsn, s.pub.records)

/-- A three-record buffer with distinct source LSNs. -/
def s5 : PubState := ⟨[⟨1, "t", 1⟩, ⟨1, "t", 2⟩, ⟨1, "t", 3⟩], 0, 0, []⟩

/-- A per-record response failing exactly index 1. -/
def resp5 : Nat → Bool := fun j => j == 1

/-- An oracle whose first call partially fails at index 1 and whose
later calls succeed. -/
def oracle5 : Nat → PutOutcome :=
  fun i => if i = 0 then .result resp5 else .result (fun _ => false)

/-- The parse result of scenario S2: an UPDATE where `name` changed from
`a` to `b` and `id` is unchanged (old tuple carries both columns). -/
def prS2 : ParseResult :=
  { operation := "UPDATE", relation := "public.users",
    columns := [("id", ⟨"7", "integer", false⟩), ("name", ⟨"b", "text", true⟩)],
    oldColumns := [("id", ⟨"7", "integer", false⟩), ("name", ⟨"a", "text", true⟩)] }

/-! ### The claims -/

/-- C1.  Ack safety: on any trace whose received WAL positions strictly
increase (upstream WAL order), for every LSN `L` carried in a
standby-status frame sent to the upstream, every retained change event
(submitted to the buffer; BEGIN/COMMIT markers and filtered relations
never reach it) with LSN `≤ L` has had its encoded record accepted by
the downstream stream at least once.  Because the trace is universally
quantified, the property holds at the moment each frame is handed to
`SendStandbyStatus`, not merely at the end of the run. -/
theorem ack_safety (cfg : Config) (tr : List Step) (hv : validFrom 0 tr = true) :
    ∀ L ∈ (runTrace cfg tr).sentFrames, ∀ e ∈ (runTrace cfg tr).log,
      e.lsn ≤ L → e ∈ (runTrace cfg tr).pub.published := by
  rcases runTrace_inv cfg tr hv with ⟨b, h⟩
  exact h.frames_covered

/-- Witness for C1 at a concrete trace: one row change at LSN 1, a
successful flush, and a keepalive that sends the frame carrying LSN 1. -/
theorem ack_safety_witness :
    validFrom 0 w1trace = true
    ∧ (∀ L ∈ (runTrace cfg0 w1trace).sentFrames, ∀ e ∈ (runTrace cfg0 w1trace).log,
        e.lsn ≤ L → e ∈ (runTrace cfg0 w1trace).pub.published) :=
  ⟨by decide, ack_safety cfg0 w1trace (by decide)⟩

/-- C2 (code bug).  Six 1-MiB records submitted through `putRecord`
leave a six-record, 6-MiB buffer with nothing flushed: the source
declares `maxRequestSize` (5 MiB) but never enforces it, so the
aggregate-payload bound of the claim is violated while the count bound
(500) is untouched. -/
theorem batch_bytes_exceed_request_size :
    (putSeq oracleOk doneNever (List.replicate 6 ⟨maxRecordSize, "t", 1⟩) initPub).records.length = 6
    ∧ batchBytes (putSeq oracleOk doneNever (List.replicate 6 ⟨maxRecordSize, "t", 1⟩) initPub)
        = 6 * maxRecordSize
    ∧ maxRequestSize
        < batchBytes (putSeq oracleOk doneNever (List.replicate 6 ⟨maxRecordSize, "t", 1⟩) initPub)
    ∧ (putSeq oracleOk doneNever (List.replicate 6 ⟨maxRecordSize, "t", 1⟩) initPub).published = []
    ∧ (putSeq oracleOk doneNever (List.replicate 6 ⟨maxRecordSize, "t", 1⟩) initPub).putRecords = 0 := by
  refine ⟨rfl, rfl, by decide, rfl, rfl⟩

/-- C3.  AckState invariants: along any trace from startup (reconnection
steps included), `maxWal` is non-decreasing and `maxWalSent ≤ maxWal`
holds after every step; moreover a single `ack` call never lowers
`maxWal` and either leaves it unchanged or sets it to the acknowledged
LSN. -/
theorem ackstate_invariants (cfg : Config) (tr tr' : List Step) :
    (runTrace cfg tr).maxWal ≤ (runTrace cfg (tr ++ tr')).maxWal
    ∧ (runTrace cfg tr).maxWalSent ≤ (runTrace cfg tr).maxWal
    ∧ ∀ (l : Nat) (s : SysState),
        s.maxWal ≤ (ack l s).maxWal
        ∧ ((ack l s).maxWal = s.maxWal ∨ (ack l s).maxWal = l) := by
  have hws0 : initState.maxWalSent ≤ initState.maxWal := Nat.le_refl 0
  have h1 := runFrom_wal cfg tr initState hws0
  refine ⟨?_, h1.2, ?_⟩
  · show (runFrom cfg initState tr).maxWal ≤ (runFrom cfg initState (tr ++ tr')).maxWal
    rw [runFrom_append]
    exact (runFrom_wal cfg tr' (runTrace cfg tr) h1.2).1
  · intro l s
    refine ⟨ack_maxWal_mono l s, ?_⟩
    rcases ack_maxWal_cases l s with h | h
    · exact Or.inl h
    · exact Or.inr h.1

/-- C4.  Column population rule of `marshalWALToJSON`: a DELETE gives
each column only an `old` value; an INSERT (whose parse yields no old
tuple) only a `new` value; an UPDATE always a `new` value, plus an `old`
value exactly for the columns present in the old tuple whose textual
value differs. -/
theorem column_population (pr : ParseResult) (walStart : Nat) (k : String)
    (v : ColumnValue) (hmem : (k, v) ∈ pr.columns)
    (hnd : (pr.columns.map Prod.fst).Nodup) :
    (pr.operation = "DELETE" →
      List.lookup k (marshalWALToJSON pr walStart).columns
        = some ⟨none, some (marshalColumnValue v)⟩)
    ∧ (pr.operation = "INSERT" → pr.oldColumns = [] →
      List.lookup k (marshalWALToJSON pr walStart).columns
        = some ⟨some (marshalColumnValue v), none⟩)
    ∧ (pr.operation = "UPDATE" →
      List.lookup k (marshalWALToJSON pr walStart).columns
        = some ⟨some (marshalColumnValue v),
            match List.lookup k pr.oldColumns with
            | some o => if v.value ≠ o.value then some (marshalColumnValue o) else none
            | none => none⟩) := by
  have hl := lookup_map_assoc (marshalColumn pr) pr.columns k v hmem hnd
  have hcols : (marshalWALToJSON pr walStart).columns
      = pr.columns.map (fun kv => (kv.1, marshalColumn pr kv.1 kv.2)) := rfl
  refine ⟨?_, ?_, ?_⟩
  · intro hop
    rw [hcols, hl]
    unfold marshalColumn
    rw [if_pos hop]
    rfl
  · intro hop hold
    have hne : ¬pr.operation = "DELETE" := by rw [hop]; decide
    rw [hcols, hl]
    unfold marshalColumn
    rw [if_neg hne, hold]
    rfl
  · intro hop
    have hne : ¬pr.operation = "DELETE" := by rw [hop]; decide
    rw [hcols, hl]
    unfold marshalColumn
    rw [if_neg hne]
    cases ho : List.lookup k pr.oldColumns with
    | none => rfl
    | some o =>
      dsimp only
      by_cases hv : v.value ≠ o.value
      · rw [if_pos hv, if_pos hv]
        rfl
      · rw [if_neg hv, if_neg hv]
        rfl

/-- Witness for C4 at scenario S2: the UPDATE event where `name` changed
from `a` to `b`; the envelope carries `old`+`new` for `name`. -/
theorem column_population_witness :
    ("name", (⟨"b", "text", true⟩ : ColumnValue)) ∈ prS2.columns
    ∧ (prS2.operation = "UPDATE" →
      List.lookup "name" (marshalWALToJSON prS2 416).columns
        = some ⟨some (marshalColumnValue ⟨"b", "text", true⟩),
            match List.lookup "name" prS2.oldColumns with
            | some o => if (⟨"b", "text", true⟩ : ColumnValue).value ≠ o.value
                then some (marshalColumnValue o) else none
            | none => none⟩) :=
  ⟨by decide,
   (column_population prS2 416 "name" ⟨"b", "text", true⟩ (by decide) (by decide)).2.2⟩

/-- C5.  Partial-failure handling: when attempt `i` of the flush loop
returns a response failing `N > 0` of the `M` buffered records, the loop
continues with exactly the failed records in their original relative
order (a sublist of the buffer), `M - N` is added to the
`stats.putRecords` statistic, and (for a duplicate-free buffer) a record
accepted in this attempt is never part of any later attempt's buffer nor
of the final buffer. -/
theorem partial_failure_retry (oracle : Nat → PutOutcome) (doneF : Nat → Bool)
    (f i : Nat) (s : PubState) (resp : Nat → Bool)
    (hor : oracle i = .result resp)
    (hd1 : doneF (2 * i) = false) (hd2 : doneF (2 * i + 1) = false)
    (hN : 0 < (failures s.records resp).length) (hnd : s.records.Nodup) :
    flushLoop oracle doneF (f + 1) i s
      = withBuf s.records (flushLoop oracle doneF f (i + 1) (afterPartialFailure s resp))
    ∧ (afterPartialFailure s resp).records = failures s.records resp
    ∧ (failures s.records resp).Sublist s.records
    ∧ (afterPartialFailure s resp).putRecords
        = s.putRecords + (s.records.length - (failures s.records resp).length)
    ∧ ∀ r ∈ accepted s.records resp,
        r ∈ (afterPartialFailure s resp).published
        ∧ r ∉ (afterPartialFailure s resp).records
        ∧ (∀ bset ∈ (flushLoop oracle doneF f (i + 1) (afterPartialFailure s resp)).buffers,
            r ∉ bset)
        ∧ r ∉ (flushLoop oracle doneF f (i + 1) (afterPartialFailure s resp)).state.records := by
  refine ⟨?_, rfl, selectByFlag_sublist true resp 0 s.records, rfl, ?_⟩
  · simp [flushLoop, hd1, hor, hN, hd2]
  · intro r hr
    have hnotf : r ∉ failures s.records resp := accepted_not_mem_failures resp hnd hr
    refine ⟨?_, ?_, ?_, ?_⟩
    · show r ∈ s.published ++ accepted s.records resp
      exact List.mem_append_right _ hr
    · exact hnotf
    · intro bset hb hrb
      have hsub := flushLoop_buffers_sublist oracle doneF f (i + 1)
        (afterPartialFailure s resp) bset hb
      exact hnotf (hsub.subset hrb)
    · intro hrb
      have hsub := flushLoop_records_sublist oracle doneF f (i + 1) (afterPartialFailure s resp)
      exact hnotf (hsub.subset hrb)

/-- Witness for C5: a three-record buffer where the response fails
exactly the middle record; the retained buffer is `[record 2]` and the
other two records never reappear. -/
theorem partial_failure_retry_witness :
    (flushLoop oracle5 doneNever (99 + 1) 0 s5
      = withBuf s5.records (flushLoop oracle5 doneNever 99 1 (afterPartialFailure s5 resp5)))
    ∧ (afterPartialFailure s5 resp5).records = failures s5.records resp5
    ∧ (failures s5.records resp5).Sublist s5.records
    ∧ (afterPartialFailure s5 resp5).putRecords
        = s5.putRecords + (s5.records.length - (failures s5.records resp5).length)
    ∧ ∀ r ∈ accepted s5.records resp5,
        r ∈ (afterPartialFailure s5 resp5).published
        ∧ r ∉ (afterPartialFailure s5 resp5).records
        ∧ (∀ bset ∈ (flushLoop oracle5 doneNever 99 1 (afterPartialFailure s5 resp5)).buffers,
            r ∉ bset)
        ∧ r ∉ (flushLoop oracle5 doneNever 99 1 (afterPartialFailure s5 resp5)).state.records :=
  partial_failure_retry oracle5 doneNever 99 0 s5 resp5 rfl rfl rfl (by decide) (by decide)

/-- C6.  Retry budget of `flushRecords`: at most 100 `PutRecords`
attempts per flush; the Kinesis client is re-created exactly once per
transport-level error among those attempts; and a fatal error is
returned only when the budget is exhausted (all 100 attempts made) or
the shutdown flag was observed set. -/
theorem flush_retry_budget (oracle : Nat → PutOutcome) (doneF : Nat → Bool)
    (s : PubState) :
    (flushRecords oracle doneF s).buffers.length ≤ 100
    ∧ (flushRecords oracle doneF s).state.clientGen
        = s.clientGen + countErrs oracle 0 (flushRecords oracle doneF s).buffers.length
    ∧ ((flushRecords oracle doneF s).error.isSome = true →
        (flushRecords oracle doneF s).buffers.length = 100 ∨ ∃ j, doneF j = true) :=
  ⟨flushRecords_buffers_le oracle doneF s,
   flushRecords_clientGen oracle doneF s,
   flushRecords_error_cases oracle doneF s⟩

/-- Witness for C6: with every attempt failing at the transport level
and shutdown never signalled, the flush makes exactly 100 attempts,
re-creates the client 100 times, and the fatal error is the
budget-exhausted case. -/
theorem flush_retry_budget_witness :
    (flushRecords oracleErr doneNever ⟨[⟨1, "t", 1⟩], 0, 0, []⟩).buffers.length ≤ 100
    ∧ ((flushRecords oracleErr doneNever ⟨[⟨1, "t", 1⟩], 0, 0, []⟩).buffers.length = 100
        ∨ ∃ j, doneNever j = true) :=
  ⟨(flush_retry_budget oracleErr doneNever ⟨[⟨1, "t", 1⟩], 0, 0, []⟩).1,
   (flush_retry_budget oracleErr doneNever ⟨[⟨1, "t", 1⟩], 0, 0, []⟩).2.2 (by decide)⟩

/-- C7 counterexample: the include pattern `public.users` contains no
wildcard — and no leaking regex metacharacter, so the token model is
faithful to the source for it — yet the relation `public.users2` is
included, because `createTableRegex` compiles to an unanchored regular
expression and Go's `MatchString` accepts any substring match.  The
claim's "a pattern without wildcards matches only that exact relation
name" is therefore false. -/
theorem filter_exact_match_cex :
    ("public.users".toList.all regexSafe) = true
    ∧ ((createTableRegex "public.users".toList).all
        (fun t => match t with | .lit _ => true | _ => false)) = true
    ∧ computeInclude ⟨[createTableRegex "public.users".toList], []⟩ "public.users2" = true
    ∧ ("public.users2" : String) ≠ "public.users" := by
  refine ⟨by decide, by decide, by decide, by decide⟩

set_option linter.unusedVariables false in
/-- C7 (amended).  Filter semantics on the faithful fragment: for
pattern lists whose characters are all regex-safe (free of the
metacharacters the source fails to escape, where the token model is
exact), `include(R)` is true exactly when (the include list is empty or
some include pattern matches `R`) and no exclude pattern matches `R`;
the memoization cache always stores exactly this decision, so
`include(R)` is the same at every sighting of `R`; and a pattern is
matched UNANCHORED — in particular a regex-safe wildcard-free pattern
matches exactly the relation names containing it as a substring, not
only the exact name.  (Outside the fragment the leaked metacharacters
keep their regex meaning in `MustCompile` — or panic it — and no claim
is made.) -/
theorem filter_semantics_amended (pats xpats : List (List Char)) (tr : List Step)
    (hsafeInc : ∀ p ∈ pats, ∀ c ∈ p, regexSafe c = true)
    (hsafeExc : ∀ p ∈ xpats, ∀ c ∈ p, regexSafe c = true) :
    (∀ q ∈ (runTrace ⟨pats.map createTableRegex, xpats.map createTableRegex⟩
          tr).tablesToStream,
        q.2 = computeInclude ⟨pats.map createTableRegex, xpats.map createTableRegex⟩ q.1)
    ∧ (∀ rel : String,
        computeInclude ⟨pats.map createTableRegex, xpats.map createTableRegex⟩ rel = true ↔
          ((pats = [] ∨ ∃ pat ∈ pats, matchString (createTableRegex pat) rel.toList = true)
            ∧ ∀ pat ∈ xpats, matchString (createTableRegex pat) rel.toList = false))
    ∧ (∀ pat rel : List Char, (∀ c ∈ pat, regexSafe c = true) →
        (∀ c ∈ pat, c ≠ '?' ∧ c ≠ '*') →
        (matchString (createTableRegex pat) rel = true ↔ ∃ l t, rel = l ++ pat ++ t)) := by
  refine ⟨?_, ?_, ?_⟩
  · exact runFrom_cacheOk ⟨pats.map createTableRegex, xpats.map createTableRegex⟩ tr
      initState (fun p hp => by simp [initState] at hp)
  · intro rel
    unfold computeInclude
    constructor
    · intro h
      split at h
      · cases h
      · rename_i hex
        simp only [Bool.or_eq_true, List.isEmpty_iff, List.any_eq_true,
          List.map_eq_nil_iff, List.mem_map] at h
        refine ⟨?_, ?_⟩
        · rcases h with h | ⟨q, ⟨pat, hmem, rfl⟩, hm⟩
          · exact Or.inl h
          · exact Or.inr ⟨pat, hmem, hm⟩
        · intro pat hmem
          by_cases hm : matchString (createTableRegex pat) rel.toList = true
          · exact absurd (List.any_eq_true.mpr
              ⟨createTableRegex pat, List.mem_map_of_mem _ hmem, hm⟩) hex
          · simpa using hm
    · rintro ⟨hin, hex⟩
      have hex' : ¬((xpats.map createTableRegex).any
          fun p => matchString p rel.toList) = true := by
        simp only [List.any_eq_true, List.mem_map]
        rintro ⟨q, ⟨pat, hmem, rfl⟩, hm⟩
        rw [hex pat hmem] at hm
        cases hm
      rw [if_neg hex']
      simp only [Bool.or_eq_true, List.isEmpty_iff, List.any_eq_true,
        List.map_eq_nil_iff, List.mem_map]
      rcases hin with h | ⟨pat, hmem, hm⟩
      · exact Or.inl h
      · exact Or.inr ⟨createTableRegex pat, ⟨pat, hmem, rfl⟩, hm⟩
  · intro pat rel _ hlit
    rw [createTableRegex_lits hlit]
    exact matchString_lits rel pat

/-- Witness for C7 (amended), on the regex-safe pattern `public.users`
with empty exclude list: the include decision for `public.users2`, and
substring matching of the regex-safe wildcard-free pattern `users`
against `public.users`. -/
theorem filter_semantics_amended_witness :
    (computeInclude ⟨[("public.users".toList)].map createTableRegex,
          ([] : List (List Char)).map createTableRegex⟩ "public.users2" = true ↔
      ((([("public.users".toList)] : List (List Char)) = []
          ∨ ∃ pat ∈ ([("public.users".toList)] : List (List Char)),
              matchString (createTableRegex pat) "public.users2".toList = true)
        ∧ ∀ pat ∈ ([] : List (List Char)),
            matchString (createTableRegex pat) "public.users2".toList = false))
    ∧ (matchString (createTableRegex "users".toList) "public.users".toList = true ↔
        ∃ l t, "public.users".toList = l ++ "users".toList ++ t) :=
  ⟨(filter_semantics_amended [("public.users".toList)] [] []
      (by decide) (by decide)).2.1 "public.users2",
   (filter_semantics_amended [("public.users".toList)] [] []
      (by decide) (by decide)).2.2
      "users".toList "public.users".toList (by decide) (by decide)⟩

/-- C8.  Oversized record: an encoded record strictly above 1 MiB makes
`putRecord` return an error with the buffer untouched and nothing
flushed, and the error propagates through `handleReplicationMsg` as a
fatal error for the connection: the replication goroutine dies while the
publisher state (buffer and accepted history) is unchanged — the record
is neither dropped silently nor retried. -/
theorem oversized_record_fatal (oracle : Nat → PutOutcome) (doneF : Nat → Bool)
    (e : Entry) (p : PubState) (he : maxRecordSize < e.size)
    (cfg : Config) (m : Msg) (s : SysState) (rel : String)
    (hcd : s.connDead = false) (hk : m.kind = .row rel false e.size)
    (hinc : (filterDecision cfg s.tablesToStream rel).1 = true) :
    putRecord oracle doneF e p = (false, some .oversize, p)
    ∧ (applyStep cfg (.recv m oracle doneF) s).connDead = true
    ∧ (applyStep cfg (.recv m oracle doneF) s).pub = s.pub
    ∧ (applyStep cfg (.recv m oracle doneF) s).lastMsg = s.lastMsg
    ∧ (applyStep cfg (.recv m oracle doneF) s).log = s.log := by
  have hput : putRecord oracle doneF e p = (false, some .oversize, p) := by
    unfold putRecord
    rw [if_pos he]
  have hstep : applyStep cfg (.recv m oracle doneF) s
      = { s with tablesToStream := (filterDecision cfg s.tablesToStream rel).2,
                 connDead := true } := by
    simp only [applyStep, hcd]
    rw [if_neg (by simp : ¬(false = true))]
    unfold handleReplicationMsg
    rw [hk]
    dsimp only
    unfold handleRow
    rw [hinc]
    rw [if_neg (by decide : ¬(!true) = true)]
    rw [if_neg (by decide : ¬(false = true))]
    have hpr : putRecord oracle doneF ⟨e.size, rel, m.lsn⟩
        { s with tablesToStream := (filterDecision cfg s.tablesToStream rel).2 }.pub
        = (false, some .oversize,
           { s with tablesToStream := (filterDecision cfg s.tablesToStream rel).2 }.pub) := by
      unfold putRecord
      rw [if_pos he]
    rw [hpr]
  refine ⟨hput, ?_, ?_, ?_, ?_⟩ <;> rw [hstep]

/-- Witness for C8: a record of 2^20 + 1 bytes on the relation `t` with
an empty filter configuration, arriving at the startup state. -/
theorem oversized_record_fatal_witness :
    (putRecord oracleOk doneNever ⟨maxRecordSize + 1, "t", 1⟩ initPub
      = (false, some .oversize, initPub))
    ∧ (applyStep cfg0 (.recv ⟨1, .row "t" false (maxRecordSize + 1)⟩ oracleOk doneNever)
        initState).connDead = true
    ∧ (applyStep cfg0 (.recv ⟨1, .row "t" false (maxRecordSize + 1)⟩ oracleOk doneNever)
        initState).pub = initState.pub
    ∧ (applyStep cfg0 (.recv ⟨1, .row "t" false (maxRecordSize + 1)⟩ oracleOk doneNever)
        initState).lastMsg = initState.lastMsg
    ∧ (applyStep cfg0 (.recv ⟨1, .row "t" false (maxRecordSize + 1)⟩ oracleOk doneNever)
        initState).log = initState.log :=
  oversized_record_fatal oracleOk doneNever ⟨maxRecordSize + 1, "t", 1⟩ initPub
    (by decide) cfg0 ⟨1, .row "t" false (maxRecordSize + 1)⟩ initState "t"
    rfl rfl (by decide)

/-- C9 (code bug).  With `--stream` absent (its default is the empty
string) and the default slot name, `main`'s validation accepts the
configuration and proceeds toward the replication loop instead of
exiting with code 1: the source's second check tests `*slot` again
instead of `*stream` (its error message even says "blank stream"), so a
blank stream is never rejected. -/
theorem blank_stream_not_rejected :
    defaultFlags.stream = "" ∧ validateFlags defaultFlags = true := by
  refine ⟨rfl, rfl⟩

theorem cexMsgs_append (a n m : Nat) :
    cexMsgs a n ++ cexMsgs (a + n) m = cexMsgs a (m + n) := by
  unfold cexMsgs
  rw [← List.map_append]
  congr 1
  have h := List.range'_append a n m 1
  simp only [Nat.one_mul] at h
  exact h

set_option maxRecDepth 8000 in
set_option maxHeartbeats 4000000 in
/-- C10 counterexample: after 500 submitted row changes whose 500th
triggers a flush that exhausts its retry budget, the connection dies
with a 500-record buffer whose last record carries LSN 500 while
`lastMsg` still names LSN 499; the post-reconnect flush publishes the
buffer (the last record published has LSN 500) but acknowledges 499 —
not the LSN of the last record of the buffer that was just flushed.  The
trace is valid (strictly increasing WAL positions). -/
theorem lastmsg_stale_cex :
    validFrom 0 cexTrace = true
    ∧ cexProbe (runTrace cfg0 cexTrace) = (499, [499], some 499, some 500, some 500, [])
    ∧ (499 : Nat) ≠ 500 := by
  have h1 : runFrom cfg0 initState (cexMsgs 1 100) = cexState 100 := by rfl
  have h2 : runFrom cfg0 (cexState 100) (cexMsgs 101 100) = cexState 200 := by rfl
  have h3 : runFrom cfg0 (cexState 200) (cexMsgs 201 100) = cexState 300 := by rfl
  have h4 : runFrom cfg0 (cexState 300) (cexMsgs 301 100) = cexState 400 := by rfl
  have h5 : runFrom cfg0 (cexState 400) (cexMsgs 401 99) = cexState 499 := by rfl
  have h6 : runFrom cfg0 (cexState 499) (cexMsgs 500 1) = cexState500 := by rfl
  have h7 : runFrom cfg0 cexState500 [.reconnect, .flushSig oracleOk doneNever] = cexFinal := by
    rfl
  have e1 : cexMsgs 1 100 ++ cexMsgs 101 400 = cexMsgs 1 500 := cexMsgs_append 1 100 400
  have e2 : cexMsgs 101 100 ++ cexMsgs 201 300 = cexMsgs 101 400 := cexMsgs_append 101 100 300
  have e3 : cexMsgs 201 100 ++ cexMsgs 301 200 = cexMsgs 201 300 := cexMsgs_append 201 100 200
  have e4 : cexMsgs 301 100 ++ cexMsgs 401 100 = cexMsgs 301 200 := cexMsgs_append 301 100 100
  have e5 : cexMsgs 401 99 ++ cexMsgs 500 1 = cexMsgs 401 100 := cexMsgs_append 401 99 1
  have hfull : runTrace cfg0 cexTrace = cexFinal := by
    show runFrom cfg0 initState cexTrace = cexFinal
    rw [show cexTrace = cexMsgs 1 500 ++ [Step.reconnect, Step.flushSig oracleOk doneNever]
      from rfl]
    rw [← e1, List.append_assoc, runFrom_append, h1]
    rw [← e2, List.append_assoc, runFrom_append, h2]
    rw [← e3, List.append_assoc, runFrom_append, h3]
    rw [← e4, List.append_assoc, runFrom_append, h4]
    rw [← e5, List.append_assoc, runFrom_append, h5]
    rw [runFrom_append, h6, h7]
  refine ⟨by decide, ?_, by decide⟩
  rw [hfull]
  decide

/-- C10 (amended).  On every trace from startup: the bridge never
dereferences a nil `lastMsg` (no crash); whenever the batch buffer is
non-empty, `lastMsg` is non-nil; `lastMsg` always names the most
recently successfully handled message — one whose record was submitted
to the buffer — and every LSN passed to `ack` by the flush paths is the
LSN of some previously submitted record (after a failed flush inside
`putRecord` and a reconnect it may be older than the buffer's last
record, never newer than any submitted one). -/
theorem lastmsg_safety (cfg : Config) (tr : List Step) :
    (runTrace cfg tr).crashed = false
    ∧ ((runTrace cfg tr).pub.records ≠ [] → (runTrace cfg tr).lastMsg ≠ none)
    ∧ (∀ mm, (runTrace cfg tr).lastMsg = some mm →
        ∃ e ∈ (runTrace cfg tr).log, e.lsn = mm.lsn)
    ∧ (∀ a ∈ (runTrace cfg tr).ackedLsns,
        ∃ e ∈ (runTrace cfg tr).log, e.lsn = a) := by
  have h := runFrom_safe cfg tr initState initState_safe
  exact ⟨h.not_crashed, h.lastMsg_some, h.lastMsg_logged, h.acked_logged⟩

/-- Witness for C10 (amended) at a concrete trace: after one submitted
record the buffer is non-empty and `lastMsg` is non-nil and names LSN 1,
which is the LSN of the submitted record. -/
theorem lastmsg_safety_witness :
    (runTrace cfg0 [.recv ⟨1, .row "t" false 1⟩ oracleOk doneNever]).crashed = false
    ∧ (runTrace cfg0 [.recv ⟨1, .row "t" false 1⟩ oracleOk doneNever]).lastMsg ≠ none
    ∧ ∃ e ∈ (runTrace cfg0 [.recv ⟨1, .row "t" false 1⟩ oracleOk doneNever]).log,
        e.lsn = (⟨1, .row "t" false 1⟩ : Msg).lsn :=
  ⟨(lastmsg_safety cfg0 [.recv ⟨1, .row "t" false 1⟩ oracleOk doneNever]).1,
   (lastmsg_safety cfg0 [.recv ⟨1, .row "t" false 1⟩ oracleOk doneNever]).2.1 (by decide),
   (lastmsg_safety cfg0 [.recv ⟨1, .row "t" false 1⟩ oracleOk doneNever]).2.2.1
     ⟨1, .row "t" false 1⟩ (by decide)⟩


end PgKinesis
